import Mathlib

/-!
# TradeOff-Engine: verification of the TOPSIS scoring core and trade-off analyzer

Shallow embedding of the numeric core of the TradeOff-Engine repository:

* `TOPSISEngine` (source: the TOPSIS engine class): decision-matrix
  construction, vector normalization, weighting, ideal solutions, Euclidean
  distances, closeness scores, rankings, and input validation.
* `TradeOffAnalyzer` (source: `src/analyzers/TradeOffAnalyzer.ts`):
  strengths/weaknesses by percentile rank, pairwise comparisons, Pareto
  dominance, recommendations with confidence scores, and input validation.

Modelling conventions:

* IEEE-754 doubles are modelled as real numbers.  The special values
  `NaN`/`Infinity`/`-Infinity`, which the source's validation layer tests
  with `isFinite`/`isNaN`, are modelled by the inductive `JSNum` wrapper on
  the raw inputs (option scores and constraint weights); validation
  guarantees that only finite values reach arithmetic, where `JSNum.val`
  extracts the real number.
* JavaScript `Map`s are modelled as association lists in insertion order;
  `mapSet` mirrors `Map.set` (replace in place, else append) and `List.lookup`
  mirrors `Map.get`.
* `Array.prototype.sort` (guaranteed stable by the ECMAScript spec) is
  modelled by `List.mergeSort`, which is stable, with the boolean order
  `le a b` meaning `comparator a b ≤ 0`.
* The `ScoringMethodology` configuration record is carried verbatim by the
  source and never influences any computation (the engine implements the
  `vector`/`linear`/`euclidean`/`max_min` choices unconditionally); it is
  omitted from the embedding.
* Human-readable `message`/`reasoning` strings are kept as fixed literals
  (the source interpolates values into them); no computation inspects them.
-/

namespace TradeOff

/-- A JavaScript number: a finite real or one of the non-finite specials.
Only raw inputs use this type; validation rejects the non-finite cases
before any arithmetic runs. -/
inductive JSNum : Type where
  | num (x : ℝ) : JSNum
  | nan : JSNum
  | posInf : JSNum
  | negInf : JSNum
deriving Inhabited

/-- The real value of a finite JS number.  Non-finite values are mapped to 0;
they are rejected by validation before arithmetic ever reads them. -/
def JSNum.val : JSNum → ℝ
  | .num x => x
  | .nan => 0
  | .posInf => 0
  | .negInf => 0

/-- `typeof w === 'number' && isFinite(w) && !isNaN(w)` on a JS number. -/
def JSNum.isFiniteNum : JSNum → Bool
  | .num _ => true
  | _ => false

/-- `ConstraintDirection`: `'maximize' | 'minimize'`. -/
inductive Direction : Type where
  | maximize : Direction
  | minimize : Direction
deriving DecidableEq, Inhabited

/-- Core `Option` record (decision alternative): id, display name, and the
`Map<string, number>` of raw scores keyed by constraint id.  The optional
`description`/`metadata` fields never enter any computation and are omitted. -/
structure Option' : Type where
  id : String
  name : String
  scores : List (String × JSNum)
deriving Inhabited

/-- Core `Constraint` record (criterion): id, name, weight (percentage),
direction.  The `type` tag and `scale` record are documentation-only (no
computation reads them) and are omitted. -/
structure Constraint : Type where
  id : String
  name : String
  weight : JSNum
  direction : Direction
deriving Inhabited

/-- `ValidationError`: `{field, message, code}`. -/
structure ValidationError : Type where
  field : String
  message : String
  code : String
deriving DecidableEq, Inhabited

/-- `ValidationResult`: `{isValid, errors, warnings}`. -/
structure ValidationResult : Type where
  isValid : Bool
  errors : List ValidationError
  warnings : List String

/-- `Result<T, E>`: tagged success/error union. -/
inductive Result (T E : Type) : Type where
  | success (data : T) : Result T E
  | error (err : E) : Result T E

/-- `OptionRanking`: one entry of the ranked output list. -/
structure OptionRanking : Type where
  option : Option'
  rank : Nat
  closenessScore : ℝ
  strengthAreas : List String
  weaknessAreas : List String

/-- `ScoringResult` produced by the engine (the constant
`scoringMethodology` record is omitted, see the module docstring). -/
structure ScoringResult : Type where
  rankings : List OptionRanking
  normalizedScores : List (String × List (String × ℝ))
  weightedScores : List (String × List (String × ℝ))
  closenessScores : List (String × ℝ)
  idealSolution : List ℝ
  negativeIdealSolution : List ℝ

/-- `option.scores.get(cid) ?? 0`: raw score of an option on a constraint,
defaulting to 0 when the entry is missing. -/
noncomputable def scoreOf (o : Option') (cid : String) : ℝ :=
  ((o.scores.lookup cid).map JSNum.val).getD 0

/-- `Map.set` on an association list: replace the value in place when the key
exists, otherwise append the new entry (JS `Map` insertion-order semantics). -/
def mapSet {α : Type} (m : List (String × α)) (k : String) (v : α) :
    List (String × α) :=
  if m.any (fun p => p.1 == k) then
    m.map (fun p => if p.1 == k then (p.1, v) else p)
  else m ++ [(k, v)]

/-- `m.get(k)!.push(v)` on an association list whose value lists accumulate:
append `v` to the list stored at key `k` (no-op when `k` is absent). -/
def mapPush (m : List (String × List String)) (k : String) (v : String) :
    List (String × List String) :=
  m.map (fun p => if p.1 == k then (p.1, p.2 ++ [v]) else p)

namespace TOPSISEngine

/-- `buildDecisionMatrix`: `matrix[i][j] = options[i].scores.get(constraints[j].id) ?? 0`. -/
noncomputable def buildDecisionMatrix (options : List Option')
    (constraints : List Constraint) : List (List ℝ) :=
  options.map (fun o => constraints.map (fun c => scoreOf o c.id))

/-- `normalizeMatrix`: vector normalization of each column;
`N[i][j] = M[i][j] / sqrt (Σ_k M[k][j]^2)`, or 0 when the column sum of
squares is not positive. -/
noncomputable def normalizeMatrix (decisionMatrix : List (List ℝ))
    (constraints : List Constraint) : List (List ℝ) :=
  let numConstraints := constraints.length
  let columnSumSquares : List ℝ :=
    (List.range numConstraints).map (fun j =>
      (decisionMatrix.map (fun row => row.getD j 0 * row.getD j 0)).sum)
  decisionMatrix.map (fun row =>
    (List.range numConstraints).map (fun j =>
      let sumSquares := columnSumSquares.getD j 0
      if 0 < sumSquares then row.getD j 0 / Real.sqrt sumSquares else 0))

/-- `applyWeights`: `W[i][j] = N[i][j] * (constraints[j].weight / 100)`. -/
noncomputable def applyWeights (normalizedMatrix : List (List ℝ))
    (constraints : List Constraint) : List (List ℝ) :=
  normalizedMatrix.map (fun row =>
    (List.range constraints.length).map (fun j =>
      row.getD j 0 * ((constraints.getD j default).weight.val / 100)))

/-- `Math.max(...columnValues)` over a (nonempty) column. -/
noncomputable def listMax : List ℝ → ℝ
  | [] => 0
  | x :: xs => xs.foldl max x

/-- `Math.min(...columnValues)` over a (nonempty) column. -/
noncomputable def listMin : List ℝ → ℝ
  | [] => 0
  | x :: xs => xs.foldl min x

/-- `calculateIdealSolutions`: per column, `(max, min)` of the weighted values
for a maximize constraint and `(min, max)` for a minimize constraint; returns
`(ideal, negativeIdeal)`. -/
noncomputable def calculateIdealSolutions (weightedMatrix : List (List ℝ))
    (constraints : List Constraint) : List ℝ × List ℝ :=
  ((List.range constraints.length).map (fun j =>
      let columnValues := weightedMatrix.map (fun row => row.getD j 0)
      match (constraints.getD j default).direction with
      | .maximize => listMax columnValues
      | .minimize => listMin columnValues),
   (List.range constraints.length).map (fun j =>
      let columnValues := weightedMatrix.map (fun row => row.getD j 0)
      match (constraints.getD j default).direction with
      | .maximize => listMin columnValues
      | .minimize => listMax columnValues))

/-- `calculateDistances`: Euclidean distances of each row to the ideal and the
negative-ideal point; returns `(positiveDistances, negativeDistances)`. -/
noncomputable def calculateDistances (weightedMatrix : List (List ℝ))
    (ideal negativeIdeal : List ℝ) : List ℝ × List ℝ :=
  (weightedMatrix.map (fun row =>
     Real.sqrt (((List.range row.length).map (fun j =>
       (row.getD j 0 - ideal.getD j 0) * (row.getD j 0 - ideal.getD j 0))).sum)),
   weightedMatrix.map (fun row =>
     Real.sqrt (((List.range row.length).map (fun j =>
       (row.getD j 0 - negativeIdeal.getD j 0) *
         (row.getD j 0 - negativeIdeal.getD j 0))).sum)))

/-- `calculateClosenessScores`: `C[i] = D-[i] / (D+[i] + D-[i])`, and `1.0`
when the total distance is zero. -/
noncomputable def calculateClosenessScores (positiveDistances negativeDistances : List ℝ) :
    List ℝ :=
  (List.range positiveDistances.length).map (fun i =>
    let positiveDistance := positiveDistances.getD i 0
    let negativeDistance := negativeDistances.getD i 0
    if positiveDistance + negativeDistance = 0 then 1
    else negativeDistance / (positiveDistance + negativeDistance))

/-- The percentile rank the engine computes for option `optionIndex` on
constraint column `j`: `(sorted.indexOf(value) + 1) / n` over the ascending
sort of the weighted column. -/
noncomputable def enginePercentile (optionIndex j : Nat)
    (weightedMatrix : List (List ℝ)) : ℝ :=
  let optionValue := (weightedMatrix.getD optionIndex []).getD j 0
  let columnValues := weightedMatrix.map (fun row => row.getD j 0)
  let sortedValues := columnValues.mergeSort (fun a b => decide (a ≤ b))
  ((sortedValues.indexOf optionValue : ℕ) + 1 : ℝ) / (sortedValues.length : ℝ)

/-- `identifyStrengths` (engine): constraint names on which the option's
weighted value sits in the top quartile, direction-aware (bottom quartile for
minimize constraints). -/
noncomputable def identifyStrengths (optionIndex : Nat)
    (weightedMatrix : List (List ℝ)) (constraints : List Constraint) :
    List String :=
  (List.range constraints.length).filterMap (fun j =>
    let c := constraints.getD j default
    let percentileRank := enginePercentile optionIndex j weightedMatrix
    match c.direction with
    | .maximize => if (0.75 : ℝ) ≤ percentileRank then some c.name else none
    | .minimize => if percentileRank ≤ (0.25 : ℝ) then some c.name else none)

/-- `identifyWeaknesses` (engine): bottom quartile, direction-aware (top
quartile for minimize constraints). -/
noncomputable def identifyWeaknesses (optionIndex : Nat)
    (weightedMatrix : List (List ℝ)) (constraints : List Constraint) :
    List String :=
  (List.range constraints.length).filterMap (fun j =>
    let c := constraints.getD j default
    let percentileRank := enginePercentile optionIndex j weightedMatrix
    match c.direction with
    | .maximize => if percentileRank ≤ (0.25 : ℝ) then some c.name else none
    | .minimize => if (0.75 : ℝ) ≤ percentileRank then some c.name else none)

/-- Intermediate record of `generateRankings` before sorting. -/
structure IndexedRanking : Type where
  option : Option'
  index : Nat
  closenessScore : ℝ

/-- The ranking comparator `(a, b) => b.closenessScore - a.closenessScore`:
`a` may stay before `b` iff the comparator is `≤ 0`. -/
noncomputable def rankLE (a b : IndexedRanking) : Bool :=
  decide (b.closenessScore ≤ a.closenessScore)

/-- `generateRankings`: stable-sort the indexed options by closeness score
descending, then attach 1-based ranks and strength/weakness tags. -/
noncomputable def generateRankings (options : List Option')
    (closenessScores : List ℝ) (weightedMatrix : List (List ℝ))
    (constraints : List Constraint) : List OptionRanking :=
  let indexedRankings := options.enum.map (fun p =>
    IndexedRanking.mk p.2 p.1 (closenessScores.getD p.1 0))
  let sorted := indexedRankings.mergeSort rankLE
  sorted.enum.map (fun p =>
    { option := p.2.option
      rank := p.1 + 1
      closenessScore := p.2.closenessScore
      strengthAreas := identifyStrengths p.2.index weightedMatrix constraints
      weaknessAreas := identifyWeaknesses p.2.index weightedMatrix constraints })

/-- `buildScoreMap`: `option_id -> constraint_id -> matrix[i][j]`. -/
noncomputable def buildScoreMap (options : List Option')
    (constraints : List Constraint) (matrix : List (List ℝ)) :
    List (String × List (String × ℝ)) :=
  options.enum.map (fun p =>
    (p.2.id, constraints.enum.map (fun q => (q.2.id, (matrix.getD p.1 []).getD q.1 0))))

/-- The `INSUFFICIENT_OPTIONS` validation error of the engine. -/
def insufficientOptionsError : ValidationError :=
  ⟨"options", "At least 2 options are required for TOPSIS calculation",
    "INSUFFICIENT_OPTIONS"⟩

/-- The `NO_CONSTRAINTS` validation error of the engine. -/
def noConstraintsError : ValidationError :=
  ⟨"constraints", "At least 1 constraint is required for TOPSIS calculation",
    "NO_CONSTRAINTS"⟩

/-- The `MISSING_SCORE` validation error of the engine. -/
def missingScoreError : ValidationError :=
  ⟨"options.scores", "Option missing score for constraint", "MISSING_SCORE"⟩

/-- The `INVALID_SCORE` validation error of the engine. -/
def invalidScoreError : ValidationError :=
  ⟨"options.scores", "Invalid score for constraint in option", "INVALID_SCORE"⟩

/-- The `INVALID_WEIGHT` validation error of the engine. -/
def invalidWeightError : ValidationError :=
  ⟨"constraints", "Invalid weight for constraint", "INVALID_WEIGHT"⟩

/-- The score check of one option-constraint pair: `MISSING_SCORE` when the
option has no entry for the constraint, `INVALID_SCORE` when the entry is
present but not a finite number. -/
def scoreError (o : Option') (c : Constraint) : List ValidationError :=
  match o.scores.lookup c.id with
  | none => [missingScoreError]
  | some s => if s.isFiniteNum then [] else [invalidScoreError]

/-- The weight check of one constraint: `INVALID_WEIGHT` when the weight is
not a finite number.  The sign of the weight is not checked. -/
def weightError (c : Constraint) : List ValidationError :=
  if c.weight.isFiniteNum then [] else [invalidWeightError]

/-- `validateInputs` (engine): `INSUFFICIENT_OPTIONS` (< 2 options),
`NO_CONSTRAINTS` (0 constraints), `MISSING_SCORE`/`INVALID_SCORE` per
option-constraint pair, `INVALID_WEIGHT` for a non-finite weight, plus a
warning when the weights do not sum to 100 (within 0.01). -/
noncomputable def validateInputs (options : List Option')
    (constraints : List Constraint) : ValidationResult :=
  let optionErrors : List ValidationError :=
    if options.length < 2 then [insufficientOptionsError] else []
  let constraintErrors : List ValidationError :=
    if constraints.length = 0 then [noConstraintsError] else []
  let scoreErrors : List ValidationError :=
    if 0 < options.length ∧ 0 < constraints.length then
      options.flatMap (fun o => constraints.flatMap (scoreError o))
    else []
  let weightErrors : List ValidationError :=
    if 0 < constraints.length then constraints.flatMap weightError
    else []
  let errors := optionErrors ++ constraintErrors ++ scoreErrors ++ weightErrors
  let warnings : List String :=
    if 0 < constraints.length ∧
        (0.01 : ℝ) < |((constraints.map (fun c => c.weight.val)).sum) - 100| then
      ["Constraint weights do not sum to 100%"]
    else []
  { isValid := errors.isEmpty, errors := errors, warnings := warnings }

/-- Pipeline steps 1-2: the normalized matrix of an input. -/
noncomputable def normalizedMatrixOf (options : List Option')
    (constraints : List Constraint) : List (List ℝ) :=
  normalizeMatrix (buildDecisionMatrix options constraints) constraints

/-- Pipeline steps 1-3: the weighted matrix of an input. -/
noncomputable def weightedMatrixOf (options : List Option')
    (constraints : List Constraint) : List (List ℝ) :=
  applyWeights (normalizedMatrixOf options constraints) constraints

/-- Pipeline step 4: the `(ideal, negativeIdeal)` pair of an input. -/
noncomputable def idealsOf (options : List Option')
    (constraints : List Constraint) : List ℝ × List ℝ :=
  calculateIdealSolutions (weightedMatrixOf options constraints) constraints

/-- Pipeline step 5: the `(positive, negative)` distance lists of an input. -/
noncomputable def distancesOf (options : List Option')
    (constraints : List Constraint) : List ℝ × List ℝ :=
  calculateDistances (weightedMatrixOf options constraints)
    (idealsOf options constraints).1 (idealsOf options constraints).2

/-- Pipeline step 6: the closeness-score list of an input (indexed like
`options`). -/
noncomputable def closenessListOf (options : List Option')
    (constraints : List Constraint) : List ℝ :=
  calculateClosenessScores (distancesOf options constraints).1
    (distancesOf options constraints).2

/-- The body of `calculateScores`'s `try` block: the seven pipeline steps,
assembled into a `ScoringResult` (total, so the `catch` is unreachable). -/
noncomputable def computeScoringResult (options : List Option')
    (constraints : List Constraint) : ScoringResult :=
  { rankings := generateRankings options (closenessListOf options constraints)
      (weightedMatrixOf options constraints) constraints
    normalizedScores := buildScoreMap options constraints (normalizedMatrixOf options constraints)
    weightedScores := buildScoreMap options constraints (weightedMatrixOf options constraints)
    closenessScores := options.enum.map (fun p =>
      (p.2.id, (closenessListOf options constraints).getD p.1 0))
    idealSolution := (idealsOf options constraints).1
    negativeIdealSolution := (idealsOf options constraints).2 }

/-- `calculateScores`: validate, then run the seven pipeline steps and
assemble the `ScoringResult`.  On validation failure, the first error is
returned. -/
noncomputable def calculateScores (options : List Option')
    (constraints : List Constraint) : Result ScoringResult ValidationError :=
  let validation := validateInputs options constraints
  if validation.isValid then
    Result.success (computeScoringResult options constraints)
  else Result.error (validation.errors.headD default)

end TOPSISEngine

/-- `ConstraintPerformance`: one strength/weakness entry of the analyzer. -/
structure ConstraintPerformance : Type where
  constraintId : String
  constraintName : String
  score : ℝ
  normalizedScore : ℝ
  percentileRank : ℝ

/-- `ConstraintDifference`: one significant pairwise difference. -/
structure ConstraintDifference : Type where
  constraintId : String
  constraintName : String
  scoreDifference : ℝ
  percentageDifference : ℝ
  significance : String

/-- `PairwiseComparison` between two options. -/
structure PairwiseComparison : Type where
  optionA : String
  optionB : String
  winner : String
  significantDifferences : List ConstraintDifference
  overallScoreDifference : ℝ

/-- `OptionAnalysis`: per-option analyzer output. -/
structure OptionAnalysis : Type where
  optionId : String
  strengths : List ConstraintPerformance
  weaknesses : List ConstraintPerformance
  overallScore : ℝ
  rank : Nat

/-- `DominanceAnalysis`: dominance sets and the Pareto frontier. -/
structure DominanceAnalysis : Type where
  dominantOptions : List String
  dominatedOptions : List String
  paretoFrontier : List String
  dominanceMatrix : List (String × List String)

/-- `Recommendation`: type tag, target option, reasoning, confidence. -/
structure Recommendation : Type where
  type : String
  optionId : String
  reasoning : String
  confidence : ℝ

/-- `TradeOffAnalysis`: full analyzer output. -/
structure TradeOffAnalysis : Type where
  optionAnalyses : List (String × OptionAnalysis)
  pairwiseComparisons : List PairwiseComparison
  dominanceRelations : DominanceAnalysis
  recommendations : List Recommendation

namespace TradeOffAnalyzer

/-- `calculatePercentileRank`: tie-splitting percentile of `value` in
`sortedValues` (1 credit per strictly smaller value, 0.5 per equal value). -/
noncomputable def calculatePercentileRank (value : ℝ) (sortedValues : List ℝ) : ℝ :=
  if sortedValues.length = 0 then 0
  else if sortedValues.length = 1 then
    (if sortedValues.getD 0 0 = value then 1 else 0)
  else
    ((sortedValues.map (fun v =>
      if v < value then (1 : ℝ) else if v = value then 0.5 else 0)).sum) /
      (sortedValues.length : ℝ)

/-- The normalized scores of every option on constraint `cid`, in scoring-map
order, sorted ascending (`Array.from(map.values()).map(get ?? 0).sort((a,b)=>a-b)`). -/
noncomputable def allNormalizedScores (scoringResult : ScoringResult) (cid : String) :
    List ℝ :=
  ((scoringResult.normalizedScores.map (fun p => (p.2.lookup cid).getD 0)).mergeSort
    (fun a b => decide (a ≤ b)))

/-- `identifyStrengths` (analyzer): entries with percentile rank `≥ 0.75` of
the option's normalized score among all options' normalized scores — with no
direction handling — sorted by percentile rank descending. -/
noncomputable def identifyStrengths (option : Option') (constraints : List Constraint)
    (scoringResult : ScoringResult) : List ConstraintPerformance :=
  match scoringResult.normalizedScores.lookup option.id with
  | none => []
  | some normalizedScores =>
    let entries := constraints.filterMap (fun c =>
      let score := ((option.scores.lookup c.id).map JSNum.val).getD 0
      let normalizedScore := (normalizedScores.lookup c.id).getD 0
      let percentileRank :=
        calculatePercentileRank normalizedScore (allNormalizedScores scoringResult c.id)
      if (0.75 : ℝ) ≤ percentileRank then
        some { constraintId := c.id
               constraintName := c.name
               score := score
               normalizedScore := normalizedScore
               percentileRank := percentileRank }
      else none)
    entries.mergeSort (fun a b => decide (b.percentileRank ≤ a.percentileRank))

/-- `identifyWeaknesses` (analyzer): entries with percentile rank `≤ 0.25`,
no direction handling, sorted by percentile rank ascending. -/
noncomputable def identifyWeaknesses (option : Option') (constraints : List Constraint)
    (scoringResult : ScoringResult) : List ConstraintPerformance :=
  match scoringResult.normalizedScores.lookup option.id with
  | none => []
  | some normalizedScores =>
    let entries := constraints.filterMap (fun c =>
      let score := ((option.scores.lookup c.id).map JSNum.val).getD 0
      let normalizedScore := (normalizedScores.lookup c.id).getD 0
      let percentileRank :=
        calculatePercentileRank normalizedScore (allNormalizedScores scoringResult c.id)
      if percentileRank ≤ (0.25 : ℝ) then
        some { constraintId := c.id
               constraintName := c.name
               score := score
               normalizedScore := normalizedScore
               percentileRank := percentileRank }
      else none)
    entries.mergeSort (fun a b => decide (a.percentileRank ≤ b.percentileRank))

/-- `compareOptions`: overall closeness gap, winner by higher closeness score
(ties go to `optionB`), and the medium/high per-constraint differences with
`percentageDifference = |rawA - rawB| / max |rawA| |rawB|` (0 when both are 0). -/
noncomputable def compareOptions (optionA optionB : Option')
    (constraints : List Constraint) (scoringResult : ScoringResult) :
    PairwiseComparison :=
  let scoreA := (scoringResult.closenessScores.lookup optionA.id).getD 0
  let scoreB := (scoringResult.closenessScores.lookup optionB.id).getD 0
  let significantDifferences := constraints.filterMap (fun c =>
    let rawScoreA := ((optionA.scores.lookup c.id).map JSNum.val).getD 0
    let rawScoreB := ((optionB.scores.lookup c.id).map JSNum.val).getD 0
    let scoreDifference := rawScoreA - rawScoreB
    let maxScore := max |rawScoreA| |rawScoreB|
    let percentageDifference := if 0 < maxScore then |scoreDifference| / maxScore else 0
    if (0.3 : ℝ) < percentageDifference then
      some { constraintId := c.id, constraintName := c.name
             scoreDifference := scoreDifference
             percentageDifference := percentageDifference, significance := "high" }
    else if (0.15 : ℝ) < percentageDifference then
      some { constraintId := c.id, constraintName := c.name
             scoreDifference := scoreDifference
             percentageDifference := percentageDifference, significance := "medium" }
    else none)
  { optionA := optionA.id
    optionB := optionB.id
    winner := if scoreB < scoreA then optionA.id else optionB.id
    significantDifferences := significantDifferences
    overallScoreDifference := |scoreA - scoreB| }

/-- `performPairwiseComparisons`: `compareOptions` over all index pairs `i < j`. -/
noncomputable def performPairwiseComparisons (scoringResult : ScoringResult)
    (options : List Option') (constraints : List Constraint) :
    List PairwiseComparison :=
  options.enum.flatMap (fun p =>
    options.enum.filterMap (fun q =>
      if p.1 < q.1 then some (compareOptions p.2 q.2 constraints scoringResult)
      else none))

/-- `dominates` inner loop: fail as soon as A is worse on a constraint,
record an advantage when A is strictly better, direction-aware. -/
noncomputable def dominatesAux (optionA optionB : Option') :
    List Constraint → Bool → Bool
  | [], hasAdvantage => hasAdvantage
  | c :: rest, hasAdvantage =>
    let scoreA := scoreOf optionA c.id
    let scoreB := scoreOf optionB c.id
    match c.direction with
    | .maximize =>
      if scoreA < scoreB then false
      else dominatesAux optionA optionB rest (hasAdvantage || decide (scoreB < scoreA))
    | .minimize =>
      if scoreB < scoreA then false
      else dominatesAux optionA optionB rest (hasAdvantage || decide (scoreA < scoreB))

/-- `dominates`: Pareto dominance of `optionA` over `optionB` on raw scores
(missing scores default to 0 via `scores.get(id) ?? 0`). -/
noncomputable def dominates (optionA optionB : Option')
    (constraints : List Constraint) : Bool :=
  dominatesAux optionA optionB constraints false

/-- One step of the dominance double loop: on an index pair `(i, j)` with
`i ≠ j` where `options[i]` dominates `options[j]`, push into both maps. -/
noncomputable def dominanceStep (options : List Option') (constraints : List Constraint)
    (ms : List (String × List String) × List (String × List String))
    (p : Nat × Nat) :
    List (String × List String) × List (String × List String) :=
  if p.1 = p.2 then ms
  else
    let optionA := options.getD p.1 default
    let optionB := options.getD p.2 default
    if dominates optionA optionB constraints then
      (mapPush ms.1 optionA.id optionB.id, mapPush ms.2 optionB.id optionA.id)
    else ms

/-- `findDominantOptions`: build the dominance adjacency and the dominated-by
map over all ordered index pairs, then read off the dominant set, the
dominated set and the Pareto frontier.  (The `scoringResult` parameter is
unused by the source as well.) -/
noncomputable def findDominantOptions (options : List Option')
    (constraints : List Constraint) (_scoringResult : ScoringResult) :
    DominanceAnalysis :=
  let init : List (String × List String) :=
    options.foldl (fun m o => mapSet m o.id ([] : List String)) []
  let n := options.length
  let pairs := (List.range n).flatMap (fun i => (List.range n).map (fun j => (i, j)))
  let ms := pairs.foldl (dominanceStep options constraints) (init, init)
  { dominantOptions :=
      (options.filter (fun o => 0 < ((ms.1.lookup o.id).getD []).length)).map (fun o => o.id)
    dominatedOptions :=
      (options.filter (fun o => 0 < ((ms.2.lookup o.id).getD []).length)).map (fun o => o.id)
    paretoFrontier :=
      (options.filter (fun o => ((ms.2.lookup o.id).getD []).length = 0)).map (fun o => o.id)
    dominanceMatrix := ms.1 }

/-- `calculateConfidence`: `min(0.95, 0.5*rankScore + 0.3*strengthScore +
0.2*weaknessScore)` with `rankScore = (N - rank + 1)/N`,
`strengthScore = min(strengths/3, 1)`, `weaknessScore = max(0, 1 - weaknesses/3)`,
`N = allAnalyses.size`. -/
noncomputable def calculateConfidence (option : OptionAnalysis)
    (allAnalyses : List (String × OptionAnalysis)) : ℝ :=
  let totalOptions : ℝ := (allAnalyses.length : ℝ)
  let rankScore := (totalOptions - (option.rank : ℝ) + 1) / totalOptions
  let strengthScore := min ((option.strengths.length : ℝ) / 3) 1
  let weaknessScore := max 0 (1 - (option.weaknesses.length : ℝ) / 3)
  min 0.95 (rankScore * 0.5 + strengthScore * 0.3 + weaknessScore * 0.2)

/-- One iteration of the `generateOptionAnalyses` loop: look the option up in
the rankings (skip it when absent) and store its analysis under its id. -/
noncomputable def analysisStep (scoringResult : ScoringResult)
    (constraints : List Constraint) (m : List (String × OptionAnalysis))
    (o : Option') : List (String × OptionAnalysis) :=
  match scoringResult.rankings.find? (fun r => r.option.id == o.id) with
  | none => m
  | some ranking =>
    mapSet m o.id
      { optionId := o.id
        strengths := identifyStrengths o constraints scoringResult
        weaknesses := identifyWeaknesses o constraints scoringResult
        overallScore := (scoringResult.closenessScores.lookup o.id).getD 0
        rank := ranking.rank }

/-- `generateOptionAnalyses`: per option (skipping any option absent from the
rankings), record strengths, weaknesses, overall closeness score and rank,
keyed by option id. -/
noncomputable def generateOptionAnalyses (scoringResult : ScoringResult)
    (options : List Option') (constraints : List Constraint) :
    List (String × OptionAnalysis) :=
  options.foldl (analysisStep scoringResult constraints) []

/-- One iteration of `findBestOverallOption`'s loop: keep the analysis with
the strictly smaller rank. -/
noncomputable def bestStep (best : Option OptionAnalysis)
    (p : String × OptionAnalysis) : Option OptionAnalysis :=
  match best with
  | none => some p.2
  | some b => if p.2.rank < b.rank then some p.2 else some b

/-- `findBestOverallOption`: the minimum-rank analysis, as a `best_overall`
recommendation. -/
noncomputable def findBestOverallOption
    (optionAnalyses : List (String × OptionAnalysis)) : Option Recommendation :=
  let bestOption := optionAnalyses.foldl bestStep none
  match bestOption with
  | none => none
  | some b =>
    some { type := "best_overall", optionId := b.optionId
           reasoning := "Ranks first with highest overall score"
           confidence := calculateConfidence b optionAnalyses }

/-- The candidate list of `findCompromiseOption`: Pareto-frontier analyses of
rank greater than 1, sorted by rank ascending. -/
noncomputable def compromiseCandidates
    (optionAnalyses : List (String × OptionAnalysis))
    (dominanceRelations : DominanceAnalysis) : List OptionAnalysis :=
  ((dominanceRelations.paretoFrontier.filterMap (fun id => optionAnalyses.lookup id)).filter
    (fun a => 1 < a.rank)).mergeSort (fun a b => decide (a.rank ≤ b.rank))

/-- `findCompromiseOption`: the best-ranked Pareto-frontier analysis of rank
greater than 1, as a `compromise` recommendation. -/
noncomputable def findCompromiseOption
    (optionAnalyses : List (String × OptionAnalysis))
    (dominanceRelations : DominanceAnalysis) : Option Recommendation :=
  let paretoOptions := compromiseCandidates optionAnalyses dominanceRelations
  match paretoOptions.head? with
  | none => none
  | some compromiseOption =>
    some { type := "compromise", optionId := compromiseOption.optionId
           reasoning := "Balanced choice with good trade-offs"
           confidence := calculateConfidence compromiseOption optionAnalyses }

/-- The candidate list of `findOptionToAvoid`: dominated analyses with at
least two weaknesses, sorted by rank descending. -/
noncomputable def avoidCandidates
    (optionAnalyses : List (String × OptionAnalysis))
    (dominanceRelations : DominanceAnalysis) : List OptionAnalysis :=
  ((dominanceRelations.dominatedOptions.filterMap (fun id => optionAnalyses.lookup id)).filter
    (fun a => 2 ≤ a.weaknesses.length)).mergeSort (fun a b => decide (b.rank ≤ a.rank))

/-- `findOptionToAvoid`: the lowest-ranked dominated analysis with at least
two weaknesses, as an `avoid` recommendation. -/
noncomputable def findOptionToAvoid
    (optionAnalyses : List (String × OptionAnalysis))
    (dominanceRelations : DominanceAnalysis) : Option Recommendation :=
  let dominatedOptions := avoidCandidates optionAnalyses dominanceRelations
  match dominatedOptions.head? with
  | none => none
  | some avoidOption =>
    some { type := "avoid", optionId := avoidOption.optionId
           reasoning := "Ranks last with significant weaknesses"
           confidence := calculateConfidence avoidOption optionAnalyses }

/-- `generateRecommendations`: `best_overall`, then optional `compromise`,
then optional `avoid`.  (The `scoringResult` parameter is unused by the
source as well.) -/
noncomputable def generateRecommendations
    (optionAnalyses : List (String × OptionAnalysis))
    (dominanceRelations : DominanceAnalysis) (_scoringResult : ScoringResult) :
    List Recommendation :=
  ((findBestOverallOption optionAnalyses).toList ++
    (findCompromiseOption optionAnalyses dominanceRelations).toList) ++
    (findOptionToAvoid optionAnalyses dominanceRelations).toList

/-- The analyzer's `INSUFFICIENT_OPTIONS` validation error. -/
def insufficientOptionsErrorA : ValidationError :=
  ⟨"options", "At least 2 options are required for trade-off analysis",
    "INSUFFICIENT_OPTIONS"⟩

/-- The analyzer's `NO_CONSTRAINTS` validation error. -/
def noConstraintsErrorA : ValidationError :=
  ⟨"constraints", "At least 1 constraint is required for trade-off analysis",
    "NO_CONSTRAINTS"⟩

/-- The analyzer's `MISSING_SCORING_DATA` validation error. -/
def missingScoringDataError : ValidationError :=
  ⟨"consistency", "Option not found in scoring results", "MISSING_SCORING_DATA"⟩

/-- `validateInputs` (analyzer): `INSUFFICIENT_OPTIONS` (< 2 options),
`NO_CONSTRAINTS` (0 constraints), `MISSING_SCORING_DATA` for each input
option id absent from the scoring result.  (The `INVALID_SCORING_RESULT`
branch guards a `null` scoring result, which has no counterpart in the
model.)  Note: no per-option score completeness is checked here. -/
def validateInputs (scoringResult : ScoringResult) (options : List Option')
    (constraints : List Constraint) : ValidationResult :=
  let optionErrors : List ValidationError :=
    if options.length < 2 then [insufficientOptionsErrorA] else []
  let constraintErrors : List ValidationError :=
    if constraints.length = 0 then [noConstraintsErrorA] else []
  let consistencyErrors : List ValidationError :=
    if 0 < options.length then
      let scoringOptionIds := scoringResult.rankings.map (fun r => r.option.id)
      ((options.map (fun o => o.id)).eraseDups).filterMap (fun id =>
        if scoringOptionIds.contains id then none else some missingScoringDataError)
    else []
  let errors := optionErrors ++ constraintErrors ++ consistencyErrors
  { isValid := errors.isEmpty, errors := errors, warnings := [] }

/-- The body of `analyzeTradeOffs`'s `try` block: option analyses, pairwise
comparisons, dominance relations and recommendations (total, so the `catch`
is unreachable). -/
noncomputable def computeTradeOffAnalysis (scoringResult : ScoringResult)
    (options : List Option') (constraints : List Constraint) : TradeOffAnalysis :=
  let optionAnalyses := generateOptionAnalyses scoringResult options constraints
  let dominanceRelations := findDominantOptions options constraints scoringResult
  { optionAnalyses := optionAnalyses
    pairwiseComparisons := performPairwiseComparisons scoringResult options constraints
    dominanceRelations := dominanceRelations
    recommendations :=
      generateRecommendations optionAnalyses dominanceRelations scoringResult }

/-- `analyzeTradeOffs`: validate, then assemble the analysis; on validation
failure the first error is returned. -/
noncomputable def analyzeTradeOffs (scoringResult : ScoringResult)
    (options : List Option') (constraints : List Constraint) :
    Result TradeOffAnalysis ValidationError :=
  let validation := validateInputs scoringResult options constraints
  if validation.isValid then
    Result.success (computeTradeOffAnalysis scoringResult options constraints)
  else Result.error (validation.errors.headD default)

end TradeOffAnalyzer

/-! ## Helper lemmas: validation and the result wrappers -/

namespace TOPSISEngine

theorem validateInputs_errors (options : List Option') (constraints : List Constraint) :
    (validateInputs options constraints).errors =
      (if options.length < 2 then [insufficientOptionsError] else []) ++
      (if constraints.length = 0 then [noConstraintsError] else []) ++
      (if 0 < options.length ∧ 0 < constraints.length then
         options.flatMap (fun o => constraints.flatMap (scoreError o))
       else []) ++
      (if 0 < constraints.length then constraints.flatMap weightError else []) := rfl

theorem validateInputs_isValid (options : List Option') (constraints : List Constraint) :
    (validateInputs options constraints).isValid =
      (validateInputs options constraints).errors.isEmpty := rfl

theorem validateInputs_warnings (options : List Option') (constraints : List Constraint) :
    (validateInputs options constraints).warnings =
      (if 0 < constraints.length ∧
          (0.01 : ℝ) < |((constraints.map (fun c => c.weight.val)).sum) - 100| then
        ["Constraint weights do not sum to 100%"]
      else []) := rfl

theorem calculateScores_of_valid {options : List Option'} {constraints : List Constraint}
    (h : (validateInputs options constraints).isValid = true) :
    calculateScores options constraints =
      Result.success (computeScoringResult options constraints) := by
  simp only [calculateScores, h, if_true]

theorem calculateScores_of_invalid {options : List Option'} {constraints : List Constraint}
    (h : (validateInputs options constraints).isValid = false) :
    calculateScores options constraints =
      Result.error ((validateInputs options constraints).errors.headD default) := by
  simp only [calculateScores, h, Bool.false_eq_true, if_false]

/-- A successful validation, assembled from the four checks. -/
theorem validateInputs_isValid_of {options : List Option'} {constraints : List Constraint}
    (hopts : 2 ≤ options.length) (hcons : 0 < constraints.length)
    (hscores : ∀ o ∈ options, ∀ c ∈ constraints, scoreError o c = [])
    (hweights : ∀ c ∈ constraints, weightError c = []) :
    (validateInputs options constraints).isValid = true := by
  have h1 : ¬ options.length < 2 := by omega
  have h2 : ¬ constraints.length = 0 := by omega
  rw [validateInputs_isValid, validateInputs_errors, if_neg h1, if_neg h2]
  have h3 : options.flatMap (fun o => constraints.flatMap (scoreError o)) = [] := by
    refine List.bind_eq_nil.mpr (fun o ho => ?_)
    exact List.bind_eq_nil.mpr (fun c hc => hscores o ho c hc)
  have h4 : constraints.flatMap weightError = [] :=
    List.bind_eq_nil.mpr hweights
  simp [h3, h4]

end TOPSISEngine

/-! ## C1: negative weights and `INVALID_WEIGHT` -/

/-- Two options scored on the single constraint `c1`. -/
noncomputable def twoOptions : List Option' :=
  [⟨"a", "Alpha", [("c1", JSNum.num 1)]⟩, ⟨"b", "Beta", [("c1", JSNum.num 2)]⟩]

/-- A single constraint whose weight is the negative (finite) number -50. -/
noncomputable def negWeightConstraints : List Constraint :=
  [⟨"c1", "Cost", JSNum.num (-50), Direction.maximize⟩]

/-- A single constraint whose weight is `NaN`. -/
noncomputable def nanWeightConstraints : List Constraint :=
  [⟨"c1", "Cost", JSNum.nan, Direction.maximize⟩]

/-- C1, counterexample: a negative (finite) weight is NOT rejected by
`calculateScores` — validation succeeds, no `INVALID_WEIGHT` error is
produced, and the computation proceeds to a success result. -/
theorem claim_C1_counterexample :
    (TOPSISEngine.validateInputs twoOptions negWeightConstraints).isValid = true ∧
    (TOPSISEngine.validateInputs twoOptions negWeightConstraints).errors = [] ∧
    ∃ r, TOPSISEngine.calculateScores twoOptions negWeightConstraints =
      Result.success r :=
  ⟨rfl, rfl, ⟨_, rfl⟩⟩

/-- C1, amended: when every other validation check passes, a criterion weight
that is non-finite (`NaN`/`±Infinity`) makes `calculateScores` fail with
error code `INVALID_WEIGHT`; but when every weight is a finite number — of
either sign, negative included — the weight check passes and scoring runs. -/
theorem claim_C1 (options : List Option') (constraints : List Constraint)
    (hopts : 2 ≤ options.length) (hcons : 0 < constraints.length)
    (hscores : ∀ o ∈ options, ∀ c ∈ constraints,
      ((o.scores.lookup c.id).map JSNum.isFiniteNum).getD false = true) :
    ((∃ c ∈ constraints, c.weight.isFiniteNum = false) →
      ∃ e, TOPSISEngine.calculateScores options constraints = Result.error e ∧
        e.code = "INVALID_WEIGHT") ∧
    ((∀ c ∈ constraints, c.weight.isFiniteNum = true) →
      ∃ r, TOPSISEngine.calculateScores options constraints = Result.success r) := by
  have h1 : ¬ options.length < 2 := by omega
  have h2 : ¬ constraints.length = 0 := by omega
  have hscores' : ∀ o ∈ options, ∀ c ∈ constraints, TOPSISEngine.scoreError o c = [] := by
    intro o ho c hc
    have := hscores o ho c hc
    unfold TOPSISEngine.scoreError
    cases hl : o.scores.lookup c.id with
    | none => rw [hl] at this; simp at this
    | some s => rw [hl] at this; simp at this; simp [this]
  constructor
  · rintro ⟨c, hc, hcw⟩
    have h3 : options.flatMap (fun o => constraints.flatMap (TOPSISEngine.scoreError o)) = [] := by
      refine List.bind_eq_nil.mpr (fun o ho => ?_)
      exact List.bind_eq_nil.mpr (fun c hc => hscores' o ho c hc)
    have herr : (TOPSISEngine.validateInputs options constraints).errors =
        constraints.flatMap TOPSISEngine.weightError := by
      rw [TOPSISEngine.validateInputs_errors, if_neg h1, if_neg h2, h3]
      simp [hcons]
    have hmemw : TOPSISEngine.invalidWeightError ∈ constraints.flatMap TOPSISEngine.weightError := by
      refine List.mem_flatMap.mpr ⟨c, hc, ?_⟩
      simp [TOPSISEngine.weightError, hcw]
    have hall : ∀ e ∈ constraints.flatMap TOPSISEngine.weightError,
        e = TOPSISEngine.invalidWeightError := by
      intro e he
      obtain ⟨c', _, he'⟩ := List.mem_flatMap.mp he
      unfold TOPSISEngine.weightError at he'
      by_cases hf : c'.weight.isFiniteNum
      · rw [if_pos hf] at he'; cases he'
      · rw [if_neg hf] at he'; simpa using he'
    obtain ⟨x, xs, hxs⟩ := List.exists_cons_of_ne_nil (List.ne_nil_of_mem hmemw)
    have hvalid : (TOPSISEngine.validateInputs options constraints).isValid = false := by
      rw [TOPSISEngine.validateInputs_isValid, herr, hxs]
      rfl
    refine ⟨(TOPSISEngine.validateInputs options constraints).errors.headD default,
      TOPSISEngine.calculateScores_of_invalid hvalid, ?_⟩
    have hx : x = TOPSISEngine.invalidWeightError :=
      hall x (by rw [hxs]; exact List.mem_cons_self x xs)
    rw [herr, hxs]
    simp [hx, TOPSISEngine.invalidWeightError]
  · intro hw
    have hweights : ∀ c ∈ constraints, TOPSISEngine.weightError c = [] := by
      intro c hc
      simp [TOPSISEngine.weightError, hw c hc]
    exact ⟨_, TOPSISEngine.calculateScores_of_valid
      (TOPSISEngine.validateInputs_isValid_of hopts hcons hscores' hweights)⟩

/-- C1, witness: at the concrete two-option input with the single `NaN`-weight
constraint, the hypotheses of `claim_C1` hold and the conclusion follows. -/
theorem claim_C1_witness :
    (2 ≤ twoOptions.length ∧ 0 < nanWeightConstraints.length ∧
      (∃ c ∈ nanWeightConstraints, c.weight.isFiniteNum = false)) ∧
    (∃ e, TOPSISEngine.calculateScores twoOptions nanWeightConstraints = Result.error e ∧
      e.code = "INVALID_WEIGHT") :=
  ⟨⟨by decide, by decide, by decide⟩,
    (claim_C1 twoOptions nanWeightConstraints (by decide) (by decide) (by decide)).1
      (by decide)⟩

/-! ## C8: the weighting step does not re-normalize -/

/-- The second component of an enumerated entry is an element of the list. -/
theorem mem_of_mem_enum {α : Type} {l : List α} {p : ℕ × α} (h : p ∈ l.enum) :
    p.2 ∈ l := by
  obtain ⟨i, x⟩ := p
  have hm := List.mem_enum h
  rw [hm.2]
  exact List.getElem_mem hm.1

/-- Closed form of one `applyWeights` entry: the normalized value times
`weight_j / 100`. -/
theorem TOPSISEngine.applyWeights_getD (nm : List (List ℝ)) (cs : List Constraint)
    (i j : Nat) (hi : i < nm.length) (hj : j < cs.length) :
    ((TOPSISEngine.applyWeights nm cs).getD i []).getD j 0 =
      ((nm.getD i []).getD j 0) * ((cs.getD j default).weight.val / 100) := by
  unfold TOPSISEngine.applyWeights
  have hi' : i < (List.map (fun row =>
      (List.range cs.length).map (fun j =>
        row.getD j 0 * ((cs.getD j default).weight.val / 100))) nm).length := by
    simpa using hi
  rw [List.getD_eq_getElem _ [] hi', List.getElem_map]
  have hj' : j < ((List.range cs.length).map (fun k =>
      (nm[i]).getD k 0 * ((cs.getD k default).weight.val / 100))).length := by
    simpa using hj
  rw [List.getD_eq_getElem _ 0 hj', List.getElem_map, List.getElem_range]
  rw [List.getD_eq_getElem nm [] hi]

/-- A fixed two-row, one-column normalized matrix. -/
noncomputable def nm8 : List (List ℝ) := [[3 / 5], [4 / 5]]

/-- A single constraint with weight 50 (the weights sum to 50, not 100). -/
noncomputable def cs8 : List Constraint :=
  [⟨"c1", "Quality", JSNum.num 50, Direction.maximize⟩]

/-- C8, counterexample: with a weight sum of 50, the weighted matrix entry is
`N * (50/100) = N/2` and NOT the re-normalized `N * (50/50) = N` the claim
asserts; the engine only emits a warning. -/
theorem claim_C8_counterexample :
    ((cs8.map (fun c => c.weight.val)).sum = 50) ∧
    (TOPSISEngine.validateInputs twoOptions cs8).warnings =
      ["Constraint weights do not sum to 100%"] ∧
    ¬ (((TOPSISEngine.applyWeights nm8 cs8).getD 0 []).getD 0 0 =
        ((nm8.getD 0 []).getD 0 0) *
          ((cs8.getD 0 default).weight.val / ((cs8.map (fun c => c.weight.val)).sum))) := by
  have hsum : (cs8.map (fun c => c.weight.val)).sum = 50 := by
    simp [cs8, JSNum.val]
  refine ⟨hsum, ?_, ?_⟩
  · rw [TOPSISEngine.validateInputs_warnings, if_pos]
    refine ⟨by decide, ?_⟩
    rw [hsum]
    norm_num
  · rw [TOPSISEngine.applyWeights_getD nm8 cs8 0 0 (by decide) (by decide), hsum]
    have h1 : (nm8.getD 0 []).getD 0 0 = 3 / 5 := by
      simp [nm8]
    have h2 : (cs8.getD 0 default).weight.val = 50 := by
      simp [cs8, JSNum.val]
    rw [h1, h2]
    norm_num

/-- C8, amended: the weighted matrix always equals the normalized matrix
multiplied column-wise by `weight_j / 100` — the weights are used as given,
with no defensive re-normalization by their actual sum; a weight sum that is
off 100 by more than 0.01 only produces a warning. -/
theorem claim_C8 (normalizedMatrix : List (List ℝ)) (options : List Option')
    (constraints : List Constraint) (i j : Nat)
    (hi : i < normalizedMatrix.length) (hj : j < constraints.length) :
    ((TOPSISEngine.applyWeights normalizedMatrix constraints).getD i []).getD j 0 =
      ((normalizedMatrix.getD i []).getD j 0) *
        ((constraints.getD j default).weight.val / 100) ∧
    ((TOPSISEngine.validateInputs options constraints).warnings ≠ [] ↔
      (0.01 : ℝ) < |((constraints.map (fun c => c.weight.val)).sum) - 100|) := by
  constructor
  · exact TOPSISEngine.applyWeights_getD normalizedMatrix constraints i j hi hj
  · have hcons : 0 < constraints.length := Nat.lt_of_le_of_lt (Nat.zero_le j) hj
    rw [TOPSISEngine.validateInputs_warnings]
    by_cases hc : (0.01 : ℝ) < |((constraints.map (fun c => c.weight.val)).sum) - 100|
    · rw [if_pos ⟨hcons, hc⟩]
      simpa using hc
    · rw [if_neg (fun hh => hc hh.2)]
      simpa using hc

/-- C8, witness: `claim_C8` applied to the concrete matrix `nm8` and the
single 50-weight constraint at indices `(0, 0)`. -/
theorem claim_C8_witness :
    (0 < nm8.length ∧ 0 < cs8.length) ∧
    (((TOPSISEngine.applyWeights nm8 cs8).getD 0 []).getD 0 0 =
      ((nm8.getD 0 []).getD 0 0) * ((cs8.getD 0 default).weight.val / 100) ∧
    ((TOPSISEngine.validateInputs twoOptions cs8).warnings ≠ [] ↔
      (0.01 : ℝ) < |((cs8.map (fun c => c.weight.val)).sum) - 100|)) :=
  ⟨⟨by decide, by decide⟩, claim_C8 nm8 twoOptions cs8 0 0 (by decide) (by decide)⟩

/-! ## C4: closeness-score bounds -/

/-- Index-safe transfer of a pointwise property to `getD` reads. -/
theorem getD_of_forall {α : Type} {P : α → Prop} {l : List α} {d : α}
    (h : ∀ x ∈ l, P x) (hd : P d) (i : ℕ) : P (l.getD i d) := by
  rcases Nat.lt_or_ge i l.length with hi | hi
  · rw [List.getD_eq_getElem _ _ hi]
    exact h _ (List.getElem_mem hi)
  · rw [List.getD_eq_default _ _ hi]
    exact hd

namespace TOPSISEngine

/-- Both distance lists consist of square roots, hence are nonnegative. -/
theorem calculateDistances_nonneg (wm : List (List ℝ)) (ideal neg : List ℝ) :
    (∀ x ∈ (calculateDistances wm ideal neg).1, 0 ≤ x) ∧
    (∀ x ∈ (calculateDistances wm ideal neg).2, 0 ≤ x) := by
  constructor <;>
  · intro x hx
    unfold calculateDistances at hx
    obtain ⟨row, _, rfl⟩ := List.mem_map.mp hx
    exact Real.sqrt_nonneg _

/-- Closeness scores built from nonnegative distance lists lie in `[0, 1]`. -/
theorem calculateClosenessScores_bounds {pd nd : List ℝ}
    (hp : ∀ x ∈ pd, 0 ≤ x) (hn : ∀ x ∈ nd, 0 ≤ x) :
    ∀ x ∈ calculateClosenessScores pd nd, 0 ≤ x ∧ x ≤ 1 := by
  intro x hx
  unfold calculateClosenessScores at hx
  obtain ⟨i, hi, rfl⟩ := List.mem_map.mp hx
  have hp0 : 0 ≤ pd.getD i 0 := getD_of_forall hp le_rfl i
  have hn0 : 0 ≤ nd.getD i 0 := getD_of_forall hn le_rfl i
  dsimp only
  by_cases h0 : pd.getD i 0 + nd.getD i 0 = 0
  · rw [if_pos h0]
    exact ⟨zero_le_one, le_rfl⟩
  · rw [if_neg h0]
    have hpos : 0 < pd.getD i 0 + nd.getD i 0 :=
      lt_of_le_of_ne (add_nonneg hp0 hn0) (Ne.symm h0)
    exact ⟨div_nonneg hn0 hpos.le,
      (div_le_one hpos).mpr (le_add_of_nonneg_left hp0)⟩

/-- The closeness list of any input lies in `[0, 1]` entrywise. -/
theorem closenessListOf_bounds (options : List Option') (constraints : List Constraint) :
    ∀ x ∈ closenessListOf options constraints, 0 ≤ x ∧ x ≤ 1 := by
  have hd := calculateDistances_nonneg (weightedMatrixOf options constraints)
    (idealsOf options constraints).1 (idealsOf options constraints).2
  exact calculateClosenessScores_bounds hd.1 hd.2

end TOPSISEngine

/-- C4: for every input accepted by validation, every closeness score in the
returned `ScoringResult` — both in the closeness map and on the rankings —
lies in `[0, 1]`; and whenever both distances of an alternative are 0, its
closeness score is exactly 1. -/
theorem claim_C4 (options : List Option') (constraints : List Constraint)
    (h : (TOPSISEngine.validateInputs options constraints).isValid = true) :
    (∀ r, TOPSISEngine.calculateScores options constraints = Result.success r →
      (∀ p ∈ r.closenessScores, 0 ≤ p.2 ∧ p.2 ≤ 1) ∧
      (∀ rk ∈ r.rankings, 0 ≤ rk.closenessScore ∧ rk.closenessScore ≤ 1)) ∧
    (∀ (pd nd : List ℝ) (i : ℕ), i < pd.length →
      pd.getD i 0 = 0 → nd.getD i 0 = 0 →
      (TOPSISEngine.calculateClosenessScores pd nd).getD i 0 = 1) := by
  constructor
  · intro r hr
    rw [TOPSISEngine.calculateScores_of_valid h] at hr
    cases hr
    have hb := TOPSISEngine.closenessListOf_bounds options constraints
    constructor
    · intro p hp
      obtain ⟨q, _, rfl⟩ := List.mem_map.mp hp
      exact getD_of_forall hb ⟨le_rfl, zero_le_one⟩ q.1
    · intro rk hrk
      unfold TOPSISEngine.computeScoringResult TOPSISEngine.generateRankings at hrk
      obtain ⟨q, hq, rfl⟩ := List.mem_map.mp hrk
      have hx := mem_of_mem_enum hq
      rw [List.mem_mergeSort] at hx
      obtain ⟨p, _, hEq⟩ := List.mem_map.mp hx
      dsimp only
      rw [← hEq]
      exact getD_of_forall hb ⟨le_rfl, zero_le_one⟩ p.1
  · intro pd nd i hi hp hn
    unfold TOPSISEngine.calculateClosenessScores
    rw [List.getD_eq_getElem _ _ (by simpa using hi), List.getElem_map,
      List.getElem_range]
    dsimp only
    rw [hp, hn, if_pos (by norm_num)]

/-- C4, witness: the hypothesis of `claim_C4` holds at the concrete
two-option, one-constraint input, and the conclusion follows. -/
theorem claim_C4_witness :
    (TOPSISEngine.validateInputs twoOptions cs8).isValid = true ∧
    ((∀ r, TOPSISEngine.calculateScores twoOptions cs8 = Result.success r →
      (∀ p ∈ r.closenessScores, 0 ≤ p.2 ∧ p.2 ≤ 1) ∧
      (∀ rk ∈ r.rankings, 0 ≤ rk.closenessScore ∧ rk.closenessScore ≤ 1)) ∧
    (∀ (pd nd : List ℝ) (i : ℕ), i < pd.length →
      pd.getD i 0 = 0 → nd.getD i 0 = 0 →
      (TOPSISEngine.calculateClosenessScores pd nd).getD i 0 = 1)) :=
  ⟨by decide, claim_C4 twoOptions cs8 (by decide)⟩

/-! ## C2: missing scores — hard error in the engine, default-to-zero in the
analyzer -/

theorem TradeOffAnalyzer.analyzeTradeOffs_of_valid {scoringResult : ScoringResult}
    {options : List Option'} {constraints : List Constraint}
    (h : (TradeOffAnalyzer.validateInputs scoringResult options constraints).isValid = true) :
    TradeOffAnalyzer.analyzeTradeOffs scoringResult options constraints =
      Result.success
        (TradeOffAnalyzer.computeTradeOffAnalysis scoringResult options constraints) := by
  simp only [TradeOffAnalyzer.analyzeTradeOffs, h, if_true]

/-- An option scoring 5 on constraint `c1`. -/
noncomputable def optA2 : Option' := ⟨"a", "Alpha", [("c1", JSNum.num 5)]⟩

/-- An option with an empty score map: it has no score for `c1` at all. -/
noncomputable def optB2 : Option' := ⟨"b", "Beta", []⟩

/-- A single maximize constraint `c1`. -/
noncomputable def cs2 : List Constraint :=
  [⟨"c1", "Quality", JSNum.num 100, Direction.maximize⟩]

/-- A scoring result covering both option ids (as the analyzer requires). -/
noncomputable def sr2 : ScoringResult :=
  { rankings := [⟨optA2, 1, 9 / 10, [], []⟩, ⟨optB2, 2, 1 / 10, [], []⟩]
    normalizedScores := [("a", [("c1", 1)]), ("b", [("c1", 0)])]
    weightedScores := [("a", [("c1", 1)]), ("b", [("c1", 0)])]
    closenessScores := [("a", 9 / 10), ("b", 1 / 10)]
    idealSolution := [1]
    negativeIdealSolution := [0] }

/-- C2, counterexample: `optB2` has no score for `c1`, yet `analyzeTradeOffs`
validates and succeeds, and the dominance check reads the missing score as 0:
`optA2` (score 5) is declared to dominate `optB2` (missing, read as 0). -/
theorem claim_C2_counterexample :
    optB2.scores.lookup "c1" = none ∧
    (TradeOffAnalyzer.validateInputs sr2 [optA2, optB2] cs2).isValid = true ∧
    (∃ t, TradeOffAnalyzer.analyzeTradeOffs sr2 [optA2, optB2] cs2 =
      Result.success t) ∧
    scoreOf optB2 "c1" = 0 ∧
    TradeOffAnalyzer.dominates optA2 optB2 cs2 = true := by
  refine ⟨rfl, rfl, ⟨_, TradeOffAnalyzer.analyzeTradeOffs_of_valid rfl⟩, ?_, ?_⟩
  · simp [scoreOf, optB2]
  · unfold TradeOffAnalyzer.dominates
    norm_num [TradeOffAnalyzer.dominatesAux, scoreOf, optA2, optB2, cs2, JSNum.val]

/-- C2, amended: in `calculateScores` a missing score is a hard error — when
the count checks pass and every present score is finite, a missing score
makes the call fail with error code `MISSING_SCORE` before any arithmetic —
whereas `analyzeTradeOffs` performs no score-completeness check at all and
its pairwise and dominance computations read a missing score as 0 (see the
counterexample). -/
theorem claim_C2 (options : List Option') (constraints : List Constraint)
    (hopts : 2 ≤ options.length) (hcons : 0 < constraints.length)
    (hfin : ∀ o ∈ options, ∀ c ∈ constraints,
      ((o.scores.lookup c.id).map JSNum.isFiniteNum).getD true = true)
    (hmiss : ∃ o ∈ options, ∃ c ∈ constraints,
      (o.scores.lookup c.id).isNone = true) :
    ∃ e, TOPSISEngine.calculateScores options constraints = Result.error e ∧
      e.code = "MISSING_SCORE" := by
  have h1 : ¬ options.length < 2 := by omega
  have h2 : ¬ constraints.length = 0 := by omega
  have hall : ∀ e ∈ options.flatMap (fun o =>
      constraints.flatMap (TOPSISEngine.scoreError o)),
      e = TOPSISEngine.missingScoreError := by
    intro e he
    obtain ⟨o, ho, he⟩ := List.mem_flatMap.mp he
    obtain ⟨c, hc, he⟩ := List.mem_flatMap.mp he
    have hf := hfin o ho c hc
    unfold TOPSISEngine.scoreError at he
    cases hl : o.scores.lookup c.id with
    | none => rw [hl] at he; simpa using he
    | some s =>
      rw [hl] at he
      rw [hl] at hf
      simp at hf
      simp [hf] at he
  have hmem : TOPSISEngine.missingScoreError ∈ options.flatMap (fun o =>
      constraints.flatMap (TOPSISEngine.scoreError o)) := by
    obtain ⟨o, ho, c, hc, hm⟩ := hmiss
    refine List.mem_flatMap.mpr ⟨o, ho, List.mem_flatMap.mpr ⟨c, hc, ?_⟩⟩
    unfold TOPSISEngine.scoreError
    cases hl : o.scores.lookup c.id with
    | none => simp
    | some s => rw [hl] at hm; simp at hm
  obtain ⟨x, xs, hxs⟩ := List.exists_cons_of_ne_nil (List.ne_nil_of_mem hmem)
  have herr : (TOPSISEngine.validateInputs options constraints).errors =
      x :: (xs ++ (if 0 < constraints.length then
        constraints.flatMap TOPSISEngine.weightError else [])) := by
    rw [TOPSISEngine.validateInputs_errors, if_neg h1, if_neg h2,
      if_pos ⟨by omega, hcons⟩, hxs]
    simp
  have hvalid : (TOPSISEngine.validateInputs options constraints).isValid = false := by
    rw [TOPSISEngine.validateInputs_isValid, herr]
    rfl
  refine ⟨(TOPSISEngine.validateInputs options constraints).errors.headD default,
    TOPSISEngine.calculateScores_of_invalid hvalid, ?_⟩
  have hx : x = TOPSISEngine.missingScoreError :=
    hall x (by rw [hxs]; exact List.mem_cons_self x xs)
  rw [herr]
  simp [hx, TOPSISEngine.missingScoreError]

/-- C2, witness: `claim_C2` applied to the two options `optA2`, `optB2` (the
latter missing its `c1` score) and the single constraint `cs2`. -/
theorem claim_C2_witness :
    (2 ≤ ([optA2, optB2] : List Option').length ∧ 0 < cs2.length) ∧
    (∃ e, TOPSISEngine.calculateScores [optA2, optB2] cs2 = Result.error e ∧
      e.code = "MISSING_SCORE") :=
  ⟨⟨by decide, by decide⟩,
    claim_C2 [optA2, optB2] cs2 (by decide) (by decide) (by decide) (by decide)⟩

/-! ## C7: recommendation confidence formula -/

theorem mem_eraseDups_loop {α : Type} [BEq α] [LawfulBEq α] (x : α) :
    ∀ (as bs : List α), x ∈ List.eraseDups.loop as bs ↔ x ∈ as ∨ x ∈ bs := by
  intro as
  induction as with
  | nil =>
    intro bs
    simp [List.eraseDups.loop]
  | cons a as ih =>
    intro bs
    rw [List.eraseDups.loop]
    cases h : bs.elem a with
    | true =>
      have ha : a ∈ bs := List.mem_of_elem_eq_true h
      rw [ih bs, List.mem_cons]
      constructor
      · rintro (hx | hx)
        · exact Or.inl (Or.inr hx)
        · exact Or.inr hx
      · rintro ((rfl | hx) | hx)
        · exact Or.inr ha
        · exact Or.inl hx
        · exact Or.inr hx
    | false =>
      rw [ih (a :: bs), List.mem_cons, List.mem_cons]
      tauto

theorem mem_eraseDups {α : Type} [BEq α] [LawfulBEq α] {x : α} {l : List α} :
    x ∈ l.eraseDups ↔ x ∈ l := by
  unfold List.eraseDups
  rw [mem_eraseDups_loop]
  simp

theorem TradeOffAnalyzer.analyzerValidateInputs_errors (scoringResult : ScoringResult)
    (options : List Option') (constraints : List Constraint) :
    (TradeOffAnalyzer.validateInputs scoringResult options constraints).errors =
      (if options.length < 2 then [TradeOffAnalyzer.insufficientOptionsErrorA] else []) ++
      (if constraints.length = 0 then [TradeOffAnalyzer.noConstraintsErrorA] else []) ++
      (if 0 < options.length then
        ((options.map (fun o => o.id)).eraseDups).filterMap (fun id =>
          if (scoringResult.rankings.map (fun r => r.option.id)).contains id then none
          else some TradeOffAnalyzer.missingScoringDataError)
      else []) := rfl

/-- Facts recovered from a successful analyzer validation: at least two
options, at least one constraint, and every option id present among the
ranked option ids. -/
theorem TradeOffAnalyzer.analyzerValidateInputs_facts {scoringResult : ScoringResult}
    {options : List Option'} {constraints : List Constraint}
    (h : (TradeOffAnalyzer.validateInputs scoringResult options constraints).isValid = true) :
    2 ≤ options.length ∧ 0 < constraints.length ∧
    ∀ o ∈ options, ∃ rk ∈ scoringResult.rankings, rk.option.id = o.id := by
  have herr : (TradeOffAnalyzer.validateInputs scoringResult options constraints).errors = [] :=
    List.isEmpty_iff.mp h
  rw [TradeOffAnalyzer.analyzerValidateInputs_errors, List.append_eq_nil, List.append_eq_nil] at herr
  obtain ⟨⟨hA, hB⟩, hC⟩ := herr
  have h1 : ¬ options.length < 2 := by
    intro hlt
    rw [if_pos hlt] at hA
    cases hA
  have h2 : ¬ constraints.length = 0 := by
    intro h0
    rw [if_pos h0] at hB
    cases hB
  refine ⟨by omega, by omega, ?_⟩
  intro o ho
  rw [if_pos (by omega : 0 < options.length), List.filterMap_eq_nil] at hC
  have hid : o.id ∈ (options.map (fun o => o.id)).eraseDups :=
    mem_eraseDups.mpr (List.mem_map_of_mem _ ho)
  have hnone := hC _ hid
  by_cases hcont :
      (scoringResult.rankings.map (fun r => r.option.id)).contains o.id = true
  · obtain ⟨rk, hrk, heq⟩ := List.mem_map.mp (List.mem_of_elem_eq_true hcont)
    exact ⟨rk, hrk, heq⟩
  · rw [if_neg hcont] at hnone
    cases hnone

/-- `mapSet` with a fresh key appends that key. -/
theorem mapSet_keys_of_not_mem {α : Type} {m : List (String × α)} {k : String}
    {v : α} (h : k ∉ m.map Prod.fst) :
    (mapSet m k v).map Prod.fst = m.map Prod.fst ++ [k] := by
  unfold mapSet
  have hany : m.any (fun p => p.1 == k) = false := by
    rw [List.any_eq_false]
    intro p hp hbeq
    exact h (List.mem_map.mpr ⟨p, hp, (beq_iff_eq.mp hbeq)⟩)
  rw [if_neg (by simp [hany])]
  simp

/-- Keys accumulated by the `generateOptionAnalyses` loop: when every option
is found in the rankings and the ids are duplicate-free, the final key list
is the initial one followed by the option ids in order. -/
theorem TradeOffAnalyzer.analysisStep_foldl_keys (scoringResult : ScoringResult)
    (constraints : List Constraint) :
    ∀ (l : List Option') (init : List (String × OptionAnalysis)),
    (∀ o ∈ l, ∃ rk ∈ scoringResult.rankings, rk.option.id = o.id) →
    (init.map Prod.fst ++ l.map (fun o => o.id)).Nodup →
    (l.foldl (TradeOffAnalyzer.analysisStep scoringResult constraints) init).map Prod.fst =
      init.map Prod.fst ++ l.map (fun o => o.id) := by
  intro l
  induction l with
  | nil =>
    intro init _ _
    simp
  | cons o l ih =>
    intro init hfound hnd
    obtain ⟨rk, hrk, heq⟩ := hfound o (List.mem_cons_self o l)
    have hfind : (scoringResult.rankings.find? (fun r => r.option.id == o.id)).isSome = true := by
      rw [List.find?_isSome]
      exact ⟨rk, hrk, by simp [heq]⟩
    obtain ⟨rk', hfind'⟩ := Option.isSome_iff_exists.mp hfind
    have hstep : TradeOffAnalyzer.analysisStep scoringResult constraints init o =
        mapSet init o.id
          { optionId := o.id
            strengths := TradeOffAnalyzer.identifyStrengths o constraints scoringResult
            weaknesses := TradeOffAnalyzer.identifyWeaknesses o constraints scoringResult
            overallScore := (scoringResult.closenessScores.lookup o.id).getD 0
            rank := rk'.rank } := by
      unfold TradeOffAnalyzer.analysisStep
      rw [hfind']
    have hfresh : o.id ∉ init.map Prod.fst := by
      intro hmem
      have : ¬ (init.map Prod.fst ++ o.id :: l.map (fun o => o.id)).Nodup := by
        intro hn
        have := List.disjoint_of_nodup_append hn
        exact this hmem (List.mem_cons_self _ _)
      exact this (by simpa using hnd)
    rw [List.foldl_cons, hstep]
    have hkeys := mapSet_keys_of_not_mem (m := init) (v :=
      { optionId := o.id
        strengths := TradeOffAnalyzer.identifyStrengths o constraints scoringResult
        weaknesses := TradeOffAnalyzer.identifyWeaknesses o constraints scoringResult
        overallScore := (scoringResult.closenessScores.lookup o.id).getD 0
        rank := rk'.rank }) hfresh
    rw [ih _ (fun o' ho' => hfound o' (List.mem_cons_of_mem _ ho')) (by
      rw [hkeys]
      simpa using hnd)]
    rw [hkeys]
    simp

/-- Size of the analyses map: one entry per option, given a successful
validation and duplicate-free option ids. -/
theorem TradeOffAnalyzer.generateOptionAnalyses_length {scoringResult : ScoringResult}
    {options : List Option'} {constraints : List Constraint}
    (hvalid : (TradeOffAnalyzer.validateInputs scoringResult options constraints).isValid = true)
    (hnodup : (options.map (fun o => o.id)).Nodup) :
    (TradeOffAnalyzer.generateOptionAnalyses scoringResult options constraints).length =
      options.length := by
  have hfound := (TradeOffAnalyzer.analyzerValidateInputs_facts hvalid).2.2
  have hkeys := TradeOffAnalyzer.analysisStep_foldl_keys scoringResult constraints
    options [] hfound (by simpa using hnodup)
  unfold TradeOffAnalyzer.generateOptionAnalyses
  have := congrArg List.length hkeys
  simpa using this

/-- `bestStep` can only return the new candidate or the old accumulator. -/
theorem TradeOffAnalyzer.bestStep_cases {acc : Option OptionAnalysis}
    {p : String × OptionAnalysis} {b : OptionAnalysis}
    (h : TradeOffAnalyzer.bestStep acc p = some b) : b = p.2 ∨ acc = some b := by
  unfold TradeOffAnalyzer.bestStep at h
  cases acc with
  | none =>
    injection h with h
    exact Or.inl h.symm
  | some b0 =>
    dsimp only at h
    by_cases hr : p.2.rank < b0.rank
    · rw [if_pos hr] at h
      injection h with h
      exact Or.inl h.symm
    · rw [if_neg hr] at h
      injection h with h
      exact Or.inr (congrArg some h)

/-- The result of the `bestStep` fold is one of the stored analyses. -/
theorem TradeOffAnalyzer.foldl_bestStep_mem :
    ∀ (l : List (String × OptionAnalysis)) (acc : Option OptionAnalysis)
      (b : OptionAnalysis),
    l.foldl TradeOffAnalyzer.bestStep acc = some b →
    (∃ p ∈ l, p.2 = b) ∨ acc = some b := by
  intro l
  induction l with
  | nil =>
    intro acc b hb
    exact Or.inr hb
  | cons p l ih =>
    intro acc b hb
    rw [List.foldl_cons] at hb
    rcases ih _ _ hb with ⟨q, hq, hqb⟩ | hacc
    · exact Or.inl ⟨q, List.mem_cons_of_mem _ hq, hqb⟩
    · rcases TradeOffAnalyzer.bestStep_cases hacc with h | h
      · exact Or.inl ⟨p, List.mem_cons_self p l, h.symm⟩
      · exact Or.inr h

/-- A successful association-list lookup exhibits a stored pair. -/
theorem mem_of_lookup_eq_some {α : Type} {m : List (String × α)} {k : String}
    {v : α} (h : m.lookup k = some v) : (k, v) ∈ m := by
  obtain ⟨l₁, l₂, hsplit, _⟩ := List.lookup_eq_some_iff.mp h
  rw [hsplit]
  exact List.mem_append.mpr (Or.inr (List.mem_cons_self _ _))

/-- C7: every recommendation emitted by `analyzeTradeOffs` (under a
successful validation and duplicate-free option ids) carries confidence
`min(0.95, 0.5*rankScore + 0.3*strengthScore + 0.2*weaknessScore)` computed
from its target's analysis with `N = options.length`; in particular no
confidence exceeds 0.95. -/
theorem claim_C7 (scoringResult : ScoringResult) (options : List Option')
    (constraints : List Constraint)
    (hvalid : (TradeOffAnalyzer.validateInputs scoringResult options constraints).isValid = true)
    (hnodup : (options.map (fun o => o.id)).Nodup) :
    ∀ t, TradeOffAnalyzer.analyzeTradeOffs scoringResult options constraints =
      Result.success t →
    ∀ rec ∈ t.recommendations,
      rec.confidence ≤ 0.95 ∧
      ∃ p ∈ TradeOffAnalyzer.generateOptionAnalyses scoringResult options constraints,
        p.2.optionId = rec.optionId ∧
        rec.confidence = min 0.95
          (((options.length : ℝ) - (p.2.rank : ℝ) + 1) / (options.length : ℝ) * 0.5 +
            min ((p.2.strengths.length : ℝ) / 3) 1 * 0.3 +
            max 0 (1 - (p.2.weaknesses.length : ℝ) / 3) * 0.2) := by
  intro t ht rec hrec
  rw [TradeOffAnalyzer.analyzeTradeOffs_of_valid hvalid] at ht
  cases ht
  have hlen := TradeOffAnalyzer.generateOptionAnalyses_length hvalid hnodup
  have hconf : ∀ b : OptionAnalysis,
      TradeOffAnalyzer.calculateConfidence b
        (TradeOffAnalyzer.generateOptionAnalyses scoringResult options constraints) =
      min 0.95
        (((options.length : ℝ) - (b.rank : ℝ) + 1) / (options.length : ℝ) * 0.5 +
          min ((b.strengths.length : ℝ) / 3) 1 * 0.3 +
          max 0 (1 - (b.weaknesses.length : ℝ) / 3) * 0.2) := by
    intro b
    unfold TradeOffAnalyzer.calculateConfidence
    rw [hlen]
  unfold TradeOffAnalyzer.computeTradeOffAnalysis TradeOffAnalyzer.generateRecommendations
    at hrec
  dsimp only at hrec
  rcases List.mem_append.mp hrec with hrec' | havoid
  · rcases List.mem_append.mp hrec' with hbest | hcomp
    · -- best_overall
      rw [Option.mem_toList, Option.mem_def] at hbest
      unfold TradeOffAnalyzer.findBestOverallOption at hbest
      dsimp only at hbest
      cases hfold : (TradeOffAnalyzer.generateOptionAnalyses scoringResult options
          constraints).foldl TradeOffAnalyzer.bestStep none with
      | none => rw [hfold] at hbest; cases hbest
      | some b =>
        rw [hfold] at hbest
        injection hbest with hbest
        rcases TradeOffAnalyzer.foldl_bestStep_mem _ _ _ hfold with ⟨p, hp, hpb⟩ | habs
        · refine ⟨?_, p, hp, ?_, ?_⟩
          · rw [← hbest]
            show TradeOffAnalyzer.calculateConfidence b _ ≤ 0.95
            rw [hconf b]
            exact min_le_left _ _
          · rw [← hbest]
            show p.2.optionId = b.optionId
            rw [hpb]
          · rw [← hbest]
            show TradeOffAnalyzer.calculateConfidence b _ = _
            rw [← hpb]
            exact hconf p.2
        · cases habs
    · -- compromise
      rw [Option.mem_toList, Option.mem_def] at hcomp
      unfold TradeOffAnalyzer.findCompromiseOption at hcomp
      dsimp only at hcomp
      cases hh : (TradeOffAnalyzer.compromiseCandidates
          (TradeOffAnalyzer.generateOptionAnalyses scoringResult options constraints)
          (TradeOffAnalyzer.findDominantOptions options constraints scoringResult)).head? with
      | none => rw [hh] at hcomp; cases hcomp
      | some b =>
        rw [hh] at hcomp
        injection hcomp with hcomp
        have hb := List.mem_of_mem_head? hh
        unfold TradeOffAnalyzer.compromiseCandidates at hb
        rw [List.mem_mergeSort] at hb
        have hb' := List.mem_of_mem_filter hb
        obtain ⟨id, _, hlk⟩ := List.mem_filterMap.mp hb'
        refine ⟨?_, (id, b), mem_of_lookup_eq_some hlk, ?_, ?_⟩
        · rw [← hcomp]
          show TradeOffAnalyzer.calculateConfidence b _ ≤ 0.95
          rw [hconf b]
          exact min_le_left _ _
        · rw [← hcomp]
        · rw [← hcomp]
          show TradeOffAnalyzer.calculateConfidence b _ = _
          exact hconf b
  · -- avoid
    rw [Option.mem_toList, Option.mem_def] at havoid
    unfold TradeOffAnalyzer.findOptionToAvoid at havoid
    dsimp only at havoid
    cases hh : (TradeOffAnalyzer.avoidCandidates
        (TradeOffAnalyzer.generateOptionAnalyses scoringResult options constraints)
        (TradeOffAnalyzer.findDominantOptions options constraints scoringResult)).head? with
    | none => rw [hh] at havoid; cases havoid
    | some b =>
      rw [hh] at havoid
      injection havoid with havoid
      have hb := List.mem_of_mem_head? hh
      unfold TradeOffAnalyzer.avoidCandidates at hb
      rw [List.mem_mergeSort] at hb
      have hb' := List.mem_of_mem_filter hb
      obtain ⟨id, _, hlk⟩ := List.mem_filterMap.mp hb'
      refine ⟨?_, (id, b), mem_of_lookup_eq_some hlk, ?_, ?_⟩
      · rw [← havoid]
        show TradeOffAnalyzer.calculateConfidence b _ ≤ 0.95
        rw [hconf b]
        exact min_le_left _ _
      · rw [← havoid]
      · rw [← havoid]
        show TradeOffAnalyzer.calculateConfidence b _ = _
        exact hconf b

/-- C7, witness: `claim_C7` applied to the concrete scoring result `sr2` with
options `optA2, optB2` and constraint list `cs2`. -/
theorem claim_C7_witness :
    (TradeOffAnalyzer.validateInputs sr2 [optA2, optB2] cs2).isValid = true ∧
    (∀ t, TradeOffAnalyzer.analyzeTradeOffs sr2 [optA2, optB2] cs2 =
      Result.success t →
    ∀ rec ∈ t.recommendations,
      rec.confidence ≤ 0.95 ∧
      ∃ p ∈ TradeOffAnalyzer.generateOptionAnalyses sr2 [optA2, optB2] cs2,
        p.2.optionId = rec.optionId ∧
        rec.confidence = min 0.95
          ((((([optA2, optB2] : List Option').length : ℝ) - (p.2.rank : ℝ) + 1) /
              ((([optA2, optB2] : List Option').length : ℝ)) * 0.5 +
            min ((p.2.strengths.length : ℝ) / 3) 1 * 0.3 +
            max 0 (1 - (p.2.weaknesses.length : ℝ) / 3) * 0.2))) :=
  ⟨rfl, claim_C7 sr2 [optA2, optB2] cs2 rfl (by decide)⟩

/-! ## C10: analyzer strengths/weaknesses ignore criterion direction -/

/-- Indices of equally-named constraints coincide when names are unique. -/
theorem constraint_name_index_inj {cs : List Constraint} {j j' : Nat}
    (hnd : (cs.map (fun c => c.name)).Nodup) (hj : j < cs.length)
    (hj' : j' < cs.length)
    (heq : (cs.getD j' default).name = (cs.getD j default).name) : j' = j := by
  have hj2 : j < (cs.map (fun c => c.name)).length := by simpa using hj
  have hj'2 : j' < (cs.map (fun c => c.name)).length := by simpa using hj'
  have hmap : (cs.map (fun c => c.name))[j'] = (cs.map (fun c => c.name))[j] := by
    rw [List.getElem_map, List.getElem_map]
    rw [List.getD_eq_getElem cs default hj', List.getD_eq_getElem cs default hj] at heq
    exact heq
  exact (List.Nodup.getElem_inj_iff hnd).mp hmap

/-- C10: the analyzer's strength/weakness entries come from the raw percentile
rank of the normalized score with NO direction handling — for a minimize
criterion, percentile `≥ 0.75` yields a strength entry and `≤ 0.25` a
weakness entry — while the engine's direction-aware tags invert the sense for
minimize criteria (name tagged as strength iff percentile `≤ 0.25`, weakness
iff `≥ 0.75`). -/
theorem claim_C10 :
    (∀ (o : Option') (cs : List Constraint) (sr : ScoringResult) (c : Constraint)
      (ns : List (String × ℝ)),
      c ∈ cs → (cs.map (fun c => c.id)).Nodup →
      c.direction = Direction.minimize →
      sr.normalizedScores.lookup o.id = some ns →
      ((∃ e ∈ TradeOffAnalyzer.identifyStrengths o cs sr, e.constraintId = c.id) ↔
        (0.75 : ℝ) ≤ TradeOffAnalyzer.calculatePercentileRank ((ns.lookup c.id).getD 0)
          (TradeOffAnalyzer.allNormalizedScores sr c.id)) ∧
      ((∃ e ∈ TradeOffAnalyzer.identifyWeaknesses o cs sr, e.constraintId = c.id) ↔
        TradeOffAnalyzer.calculatePercentileRank ((ns.lookup c.id).getD 0)
          (TradeOffAnalyzer.allNormalizedScores sr c.id) ≤ (0.25 : ℝ))) ∧
    (∀ (wm : List (List ℝ)) (cs : List Constraint) (idx j : Nat),
      j < cs.length → (cs.getD j default).direction = Direction.minimize →
      (cs.map (fun c => c.name)).Nodup →
      (((cs.getD j default).name ∈ TOPSISEngine.identifyStrengths idx wm cs) ↔
        TOPSISEngine.enginePercentile idx j wm ≤ (0.25 : ℝ)) ∧
      (((cs.getD j default).name ∈ TOPSISEngine.identifyWeaknesses idx wm cs) ↔
        (0.75 : ℝ) ≤ TOPSISEngine.enginePercentile idx j wm)) := by
  constructor
  · intro o cs sr c ns hc hnd _hdir hlk
    constructor
    · unfold TradeOffAnalyzer.identifyStrengths
      rw [hlk]
      constructor
      · rintro ⟨e, he, heid⟩
        rw [List.mem_mergeSort] at he
        obtain ⟨c', hc', hfc⟩ := List.mem_filterMap.mp he
        dsimp only at hfc
        by_cases hpr : (0.75 : ℝ) ≤ TradeOffAnalyzer.calculatePercentileRank
            ((ns.lookup c'.id).getD 0) (TradeOffAnalyzer.allNormalizedScores sr c'.id)
        · rw [if_pos hpr] at hfc
          injection hfc with hfc
          rw [← hfc] at heid
          have hcc : c' = c := List.inj_on_of_nodup_map hnd hc' hc heid
          rw [hcc] at hpr
          exact hpr
        · rw [if_neg hpr] at hfc
          cases hfc
      · intro hpr
        refine ⟨⟨c.id, c.name,
            ((o.scores.lookup c.id).map JSNum.val).getD 0,
            (ns.lookup c.id).getD 0,
            TradeOffAnalyzer.calculatePercentileRank ((ns.lookup c.id).getD 0)
              (TradeOffAnalyzer.allNormalizedScores sr c.id)⟩, ?_, rfl⟩
        rw [List.mem_mergeSort]
        refine List.mem_filterMap.mpr ⟨c, hc, ?_⟩
        dsimp only
        rw [if_pos hpr]
    · unfold TradeOffAnalyzer.identifyWeaknesses
      rw [hlk]
      constructor
      · rintro ⟨e, he, heid⟩
        rw [List.mem_mergeSort] at he
        obtain ⟨c', hc', hfc⟩ := List.mem_filterMap.mp he
        dsimp only at hfc
        by_cases hpr : TradeOffAnalyzer.calculatePercentileRank
            ((ns.lookup c'.id).getD 0) (TradeOffAnalyzer.allNormalizedScores sr c'.id) ≤
            (0.25 : ℝ)
        · rw [if_pos hpr] at hfc
          injection hfc with hfc
          rw [← hfc] at heid
          have hcc : c' = c := List.inj_on_of_nodup_map hnd hc' hc heid
          rw [hcc] at hpr
          exact hpr
        · rw [if_neg hpr] at hfc
          cases hfc
      · intro hpr
        refine ⟨⟨c.id, c.name,
            ((o.scores.lookup c.id).map JSNum.val).getD 0,
            (ns.lookup c.id).getD 0,
            TradeOffAnalyzer.calculatePercentileRank ((ns.lookup c.id).getD 0)
              (TradeOffAnalyzer.allNormalizedScores sr c.id)⟩, ?_, rfl⟩
        rw [List.mem_mergeSort]
        refine List.mem_filterMap.mpr ⟨c, hc, ?_⟩
        dsimp only
        rw [if_pos hpr]
  · intro wm cs idx j hj hdir hnd
    constructor
    · unfold TOPSISEngine.identifyStrengths
      constructor
      · intro h
        obtain ⟨j', hj'r, hfj⟩ := List.mem_filterMap.mp h
        have hj' : j' < cs.length := List.mem_range.mp hj'r
        dsimp only at hfj
        cases hd' : (cs.getD j' default).direction with
        | maximize =>
          rw [hd'] at hfj
          dsimp only at hfj
          by_cases hpr' : (0.75 : ℝ) ≤ TOPSISEngine.enginePercentile idx j' wm
          · rw [if_pos hpr'] at hfj
            injection hfj with hfj
            rw [constraint_name_index_inj hnd hj hj' hfj] at hd'
            rw [hdir] at hd'
            cases hd'
          · rw [if_neg hpr'] at hfj
            cases hfj
        | minimize =>
          rw [hd'] at hfj
          dsimp only at hfj
          by_cases hpr' : TOPSISEngine.enginePercentile idx j' wm ≤ (0.25 : ℝ)
          · rw [if_pos hpr'] at hfj
            injection hfj with hfj
            rw [constraint_name_index_inj hnd hj hj' hfj] at hpr'
            exact hpr'
          · rw [if_neg hpr'] at hfj
            cases hfj
      · intro hpr
        refine List.mem_filterMap.mpr ⟨j, List.mem_range.mpr hj, ?_⟩
        dsimp only
        rw [hdir]
        dsimp only
        rw [if_pos hpr]
    · unfold TOPSISEngine.identifyWeaknesses
      constructor
      · intro h
        obtain ⟨j', hj'r, hfj⟩ := List.mem_filterMap.mp h
        have hj' : j' < cs.length := List.mem_range.mp hj'r
        dsimp only at hfj
        cases hd' : (cs.getD j' default).direction with
        | maximize =>
          rw [hd'] at hfj
          dsimp only at hfj
          by_cases hpr' : TOPSISEngine.enginePercentile idx j' wm ≤ (0.25 : ℝ)
          · rw [if_pos hpr'] at hfj
            injection hfj with hfj
            rw [constraint_name_index_inj hnd hj hj' hfj] at hd'
            rw [hdir] at hd'
            cases hd'
          · rw [if_neg hpr'] at hfj
            cases hfj
        | minimize =>
          rw [hd'] at hfj
          dsimp only at hfj
          by_cases hpr' : (0.75 : ℝ) ≤ TOPSISEngine.enginePercentile idx j' wm
          · rw [if_pos hpr'] at hfj
            injection hfj with hfj
            rw [constraint_name_index_inj hnd hj hj' hfj] at hpr'
            exact hpr'
          · rw [if_neg hpr'] at hfj
            cases hfj
      · intro hpr
        refine List.mem_filterMap.mpr ⟨j, List.mem_range.mpr hj, ?_⟩
        dsimp only
        rw [hdir]
        dsimp only
        rw [if_pos hpr]

/-- A single minimize constraint for the C10 witness. -/
noncomputable def cs10 : List Constraint :=
  [⟨"c1", "Cost", JSNum.num 100, Direction.minimize⟩]

/-- C10, witness: the hypotheses of `claim_C10`'s two halves hold at the
concrete option `optA2`, constraint list `cs10`, scoring result `sr2`, and
the matrix `nm8` at indices `(0, 0)`. -/
theorem claim_C10_witness :
    ((∃ e ∈ TradeOffAnalyzer.identifyStrengths optA2 cs10 sr2,
        e.constraintId = (⟨"c1", "Cost", JSNum.num 100, Direction.minimize⟩ : Constraint).id) ↔
      (0.75 : ℝ) ≤ TradeOffAnalyzer.calculatePercentileRank
        ((([("c1", (1 : ℝ))]).lookup "c1").getD 0)
        (TradeOffAnalyzer.allNormalizedScores sr2 "c1")) ∧
    (((cs10.getD 0 default).name ∈ TOPSISEngine.identifyStrengths 0 nm8 cs10) ↔
      TOPSISEngine.enginePercentile 0 0 nm8 ≤ (0.25 : ℝ)) :=
  ⟨((claim_C10.1 optA2 cs10 sr2 ⟨"c1", "Cost", JSNum.num 100, Direction.minimize⟩
      [("c1", (1 : ℝ))] (List.mem_singleton.mpr rfl) (by decide) rfl rfl).1),
   ((claim_C10.2 nm8 cs10 0 0 (by decide) rfl (by decide)).1)⟩

/-! ## C3: the Pareto frontier is never empty -/

/-- Specification predicate: `a` is at least as good as `b` on constraint
`c` (the early-return test of the `dominates` loop fails). -/
def notWorse (a b : Option') (c : Constraint) : Prop :=
  match c.direction with
  | .maximize => ¬ (scoreOf a c.id < scoreOf b c.id)
  | .minimize => ¬ (scoreOf b c.id < scoreOf a c.id)

/-- Specification predicate: `a` is strictly better than `b` on constraint
`c` (the advantage test of the `dominates` loop fires). -/
def strictlyBetter (a b : Option') (c : Constraint) : Prop :=
  match c.direction with
  | .maximize => scoreOf b c.id < scoreOf a c.id
  | .minimize => scoreOf a c.id < scoreOf b c.id

theorem dominatesAux_iff (a b : Option') :
    ∀ (cs : List Constraint) (adv : Bool),
    TradeOffAnalyzer.dominatesAux a b cs adv = true ↔
      (∀ c ∈ cs, notWorse a b c) ∧
        (adv = true ∨ ∃ c ∈ cs, strictlyBetter a b c) := by
  intro cs
  induction cs with
  | nil =>
    intro adv
    simp [TradeOffAnalyzer.dominatesAux]
  | cons c rest ih =>
    intro adv
    rw [TradeOffAnalyzer.dominatesAux]
    cases hd : c.direction with
    | maximize =>
      dsimp only
      by_cases hw : scoreOf a c.id < scoreOf b c.id
      · rw [if_pos hw]
        simp only [Bool.false_eq_true, false_iff, not_and, List.forall_mem_cons]
        intro hnw
        exact absurd hw (by simpa [notWorse, hd] using hnw.1)
      · rw [if_neg hw, ih]
        simp only [List.forall_mem_cons, Bool.or_eq_true, decide_eq_true_eq,
          List.exists_mem_cons_iff, notWorse, strictlyBetter, hd]
        constructor
        · rintro ⟨hrest, (hadv | hsb) | hex⟩
          · exact ⟨⟨hw, hrest⟩, Or.inl hadv⟩
          · exact ⟨⟨hw, hrest⟩, Or.inr (Or.inl hsb)⟩
          · exact ⟨⟨hw, hrest⟩, Or.inr (Or.inr hex)⟩
        · rintro ⟨⟨_, hrest⟩, hadv | (hsb | hex)⟩
          · exact ⟨hrest, Or.inl (Or.inl hadv)⟩
          · exact ⟨hrest, Or.inl (Or.inr hsb)⟩
          · exact ⟨hrest, Or.inr hex⟩
    | minimize =>
      dsimp only
      by_cases hw : scoreOf b c.id < scoreOf a c.id
      · rw [if_pos hw]
        simp only [Bool.false_eq_true, false_iff, not_and, List.forall_mem_cons]
        intro hnw
        exact absurd hw (by simpa [notWorse, hd] using hnw.1)
      · rw [if_neg hw, ih]
        simp only [List.forall_mem_cons, Bool.or_eq_true, decide_eq_true_eq,
          List.exists_mem_cons_iff, notWorse, strictlyBetter, hd]
        constructor
        · rintro ⟨hrest, (hadv | hsb) | hex⟩
          · exact ⟨⟨hw, hrest⟩, Or.inl hadv⟩
          · exact ⟨⟨hw, hrest⟩, Or.inr (Or.inl hsb)⟩
          · exact ⟨⟨hw, hrest⟩, Or.inr (Or.inr hex)⟩
        · rintro ⟨⟨_, hrest⟩, hadv | (hsb | hex)⟩
          · exact ⟨hrest, Or.inl (Or.inl hadv)⟩
          · exact ⟨hrest, Or.inl (Or.inr hsb)⟩
          · exact ⟨hrest, Or.inr hex⟩

/-- `dominates` holds iff `a` is never worse and strictly better somewhere. -/
theorem dominates_iff (a b : Option') (cs : List Constraint) :
    TradeOffAnalyzer.dominates a b cs = true ↔
      (∀ c ∈ cs, notWorse a b c) ∧ ∃ c ∈ cs, strictlyBetter a b c := by
  unfold TradeOffAnalyzer.dominates
  rw [dominatesAux_iff]
  simp

/-- Pareto dominance is irreflexive. -/
theorem dominates_self_false (a : Option') (cs : List Constraint) :
    TradeOffAnalyzer.dominates a a cs = false := by
  rw [Bool.eq_false_iff]
  intro h
  obtain ⟨-, c, -, hsb⟩ := (dominates_iff a a cs).mp h
  unfold strictlyBetter at hsb
  cases hc : c.direction <;> rw [hc] at hsb <;> exact lt_irrefl _ hsb

/-- Pareto dominance is transitive. -/
theorem dominates_trans {a b c : Option'} {cs : List Constraint}
    (hab : TradeOffAnalyzer.dominates a b cs = true)
    (hbc : TradeOffAnalyzer.dominates b c cs = true) :
    TradeOffAnalyzer.dominates a c cs = true := by
  obtain ⟨hnw1, c1, hc1, hsb1⟩ := (dominates_iff a b cs).mp hab
  obtain ⟨hnw2, -⟩ := (dominates_iff b c cs).mp hbc
  refine (dominates_iff a c cs).mpr ⟨?_, c1, hc1, ?_⟩
  · intro c' hc'
    have h1 := hnw1 c' hc'
    have h2 := hnw2 c' hc'
    unfold notWorse at h1 h2 ⊢
    cases hc : c'.direction <;> rw [hc] at h1 h2
    · exact not_lt.mpr (le_trans (not_lt.mp h2) (not_lt.mp h1))
    · exact not_lt.mpr (le_trans (not_lt.mp h1) (not_lt.mp h2))
  · have h2 := hnw2 c1 hc1
    unfold strictlyBetter at hsb1 ⊢
    unfold notWorse at h2
    cases hc : c1.direction <;> rw [hc] at hsb1 h2
    · exact lt_of_le_of_lt (not_lt.mp h2) hsb1
    · exact lt_of_lt_of_le hsb1 (not_lt.mp h2)

/-- Every nonempty finite list of options has a member dominated by no one:
`dominates` is a strict partial order, so a maximal element exists. -/
theorem exists_undominated (cs : List Constraint) :
    ∀ (l : List Option'), l ≠ [] →
    ∃ o ∈ l, ∀ o' ∈ l, TradeOffAnalyzer.dominates o' o cs = false := by
  intro l
  induction l with
  | nil => intro h; exact absurd rfl h
  | cons a rest ih =>
    intro _
    by_cases hrest : rest = []
    · subst hrest
      refine ⟨a, List.mem_cons_self a [], ?_⟩
      intro o' ho'
      rw [List.mem_singleton.mp ho']
      exact dominates_self_false a cs
    · obtain ⟨m, hm, hmax⟩ := ih hrest
      by_cases ham : TradeOffAnalyzer.dominates a m cs = true
      · refine ⟨a, List.mem_cons_self a rest, ?_⟩
        intro o' ho'
        rcases List.mem_cons.mp ho' with rfl | ho'
        · exact dominates_self_false o' cs
        · rw [Bool.eq_false_iff]
          intro hda
          have hdm := dominates_trans hda ham
          rw [hmax o' ho'] at hdm
          cases hdm
      · refine ⟨m, List.mem_cons_of_mem _ hm, ?_⟩
        intro o' ho'
        rcases List.mem_cons.mp ho' with rfl | ho'
        · exact Bool.eq_false_iff.mpr ham
        · exact hmax o' ho'

/-- Updating the value stored at one key leaves lookups at other keys
unchanged. -/
theorem lookup_map_update {α : Type} (kp : String) (g : α → α) :
    ∀ (m : List (String × α)) (k : String), kp ≠ k →
    (m.map (fun p => if p.1 == kp then (p.1, g p.2) else p)).lookup k =
      m.lookup k := by
  intro m
  induction m with
  | nil => intro k _; rfl
  | cons p m ih =>
    intro k hk
    obtain ⟨pk, pv⟩ := p
    dsimp only [List.map]
    by_cases hp : pk = kp
    · subst hp
      rw [if_pos (by simp)]
      have hkk : (k == pk) = false := by
        simp only [beq_eq_false_iff_ne, ne_eq]
        exact fun hkk => hk hkk.symm
      simp only [List.lookup, hkk]
      exact ih k hk
    · rw [if_neg (by simpa using hp)]
      cases hkk : k == pk with
      | true => simp [List.lookup, hkk]
      | false =>
        simp only [List.lookup, hkk]
        exact ih k hk

/-- `mapPush` at another key does not change a lookup. -/
theorem mapPush_lookup_ne {m : List (String × List String)} {kp v k : String}
    (h : kp ≠ k) : (mapPush m kp v).lookup k = m.lookup k :=
  lookup_map_update kp (fun l => l ++ [v]) m k h

/-- `mapSet` stores the value at its key. -/
theorem mapSet_lookup_self {α : Type} {m : List (String × α)} {k : String} {v : α} :
    (mapSet m k v).lookup k = some v := by
  unfold mapSet
  by_cases hany : m.any (fun p => p.1 == k) = true
  · rw [if_pos hany]
    induction m with
    | nil => simp at hany
    | cons p m ih =>
      obtain ⟨pk, pv⟩ := p
      dsimp only [List.map]
      by_cases hp : pk = k
      · subst hp
        rw [if_pos (by simp)]
        simp [List.lookup]
      · rw [if_neg (by simpa using hp)]
        have hkk : (k == pk) = false := by
          simp only [beq_eq_false_iff_ne, ne_eq]
          exact fun hkk => hp hkk.symm
        simp only [List.lookup, hkk]
        apply ih
        simp only [List.any_cons, Bool.or_eq_true] at hany
        rcases hany with hh | hany
        · exact absurd (by simpa using hh) hp
        · exact hany
  · rw [if_neg hany]
    have hnone : m.lookup k = none := by
      rw [List.lookup_eq_none_iff]
      intro p hp
      simp only [List.any_eq_true, not_exists, not_and] at hany
      have hne := hany p hp
      simp only [bne_iff_ne, ne_eq]
      exact fun hkk => hne (by simpa using hkk.symm)
    rw [List.lookup_append, hnone]
    simp [List.lookup]

/-- `mapSet` at another key does not change a lookup. -/
theorem mapSet_lookup_ne {α : Type} {m : List (String × α)} {kp : String} {v : α}
    {k : String} (h : kp ≠ k) : (mapSet m kp v).lookup k = m.lookup k := by
  unfold mapSet
  by_cases hany : m.any (fun p => p.1 == kp) = true
  · rw [if_pos hany]
    exact lookup_map_update kp (fun _ => v) m k h
  · rw [if_neg hany]
    rw [List.lookup_append]
    have hlast : ([(kp, v)] : List (String × α)).lookup k = none := by
      have hkk : (k == kp) = false := by
        simp only [beq_eq_false_iff_ne, ne_eq]
        exact fun hkk => h hkk.symm
      simp [List.lookup, hkk]
    rw [hlast]
    cases m.lookup k <;> rfl

/-- After the id-initialization loop, every option id maps to `[]`. -/
theorem initMap_lookup (options : List Option') :
    ∀ (m0 : List (String × List String)) (k : String),
    (k ∈ options.map (fun o => o.id) ∨ m0.lookup k = some []) →
    ((options.foldl (fun m o => mapSet m o.id ([] : List String)) m0).lookup k) =
      some [] := by
  induction options with
  | nil =>
    intro m0 k h
    rcases h with h | h
    · simp at h
    · simpa using h
  | cons o rest ih =>
    intro m0 k h
    rw [List.foldl_cons]
    apply ih
    by_cases hk : o.id = k
    · right
      rw [← hk]
      exact mapSet_lookup_self
    · rcases h with h | h
      · rw [List.map_cons] at h
        rcases List.mem_cons.mp h with hko | hkr
        · exact absurd hko.symm hk
        · exact Or.inl hkr
      · right
        rw [mapSet_lookup_ne hk]
        exact h

/-- If no processed index pair pushes onto key `k`, the dominated-by map is
unchanged at `k` by the dominance double loop. -/
theorem foldl_dominanceStep_lookup (options : List Option')
    (constraints : List Constraint) (k : String) :
    ∀ (ps : List (Nat × Nat))
      (ms : List (String × List String) × List (String × List String)),
    (∀ p ∈ ps, (options.getD p.2 default).id ≠ k ∨
      TradeOffAnalyzer.dominates (options.getD p.1 default)
        (options.getD p.2 default) constraints = false) →
    ((ps.foldl (TradeOffAnalyzer.dominanceStep options constraints) ms).2).lookup k =
      ms.2.lookup k := by
  intro ps
  induction ps with
  | nil => intro ms _; rfl
  | cons p ps ih =>
    intro ms hp
    rw [List.foldl_cons]
    rw [ih _ (fun q hq => hp q (List.mem_cons_of_mem _ hq))]
    unfold TradeOffAnalyzer.dominanceStep
    by_cases hij : p.1 = p.2
    · rw [if_pos hij]
    · rw [if_neg hij]
      rcases hp p (List.mem_cons_self p ps) with hne | hdom
      · by_cases hd : TradeOffAnalyzer.dominates (options.getD p.1 default)
            (options.getD p.2 default) constraints = true
        · rw [if_pos hd]
          exact mapPush_lookup_ne hne
        · rw [if_neg hd]
      · rw [if_neg (by rw [hdom]; exact Bool.false_ne_true)]

theorem TradeOffAnalyzer.findDominantOptions_paretoFrontier
    (options : List Option') (constraints : List Constraint)
    (scoringResult : ScoringResult) :
    (TradeOffAnalyzer.findDominantOptions options constraints scoringResult).paretoFrontier =
      (options.filter (fun o =>
        (((((List.range options.length).flatMap (fun i =>
            (List.range options.length).map (fun j => (i, j)))).foldl
          (TradeOffAnalyzer.dominanceStep options constraints)
          (options.foldl (fun m o => mapSet m o.id ([] : List String)) [],
           options.foldl (fun m o => mapSet m o.id ([] : List String)) [])).2.lookup
            o.id).getD []).length = 0)).map (fun o => o.id) := rfl

/-- C3: for a validated input with duplicate-free option ids and a non-empty
option list, the Pareto frontier of the returned `DominanceAnalysis` is
non-empty. -/
theorem claim_C3 (scoringResult : ScoringResult) (options : List Option')
    (constraints : List Constraint)
    (hvalid : (TradeOffAnalyzer.validateInputs scoringResult options constraints).isValid = true)
    (hnodup : (options.map (fun o => o.id)).Nodup)
    (hne : options ≠ []) :
    ∀ t, TradeOffAnalyzer.analyzeTradeOffs scoringResult options constraints =
      Result.success t →
    t.dominanceRelations.paretoFrontier ≠ [] := by
  intro t ht
  rw [TradeOffAnalyzer.analyzeTradeOffs_of_valid hvalid] at ht
  cases ht
  obtain ⟨o, ho, hmax⟩ := exists_undominated constraints options hne
  unfold TradeOffAnalyzer.computeTradeOffAnalysis
  dsimp only
  rw [TradeOffAnalyzer.findDominantOptions_paretoFrontier]
  have hpairs : ∀ p ∈ (List.range options.length).flatMap (fun i =>
      (List.range options.length).map (fun j => (i, j))),
      (options.getD p.2 default).id ≠ o.id ∨
      TradeOffAnalyzer.dominates (options.getD p.1 default)
        (options.getD p.2 default) constraints = false := by
    intro p hp
    obtain ⟨i, hi, hp2⟩ := List.mem_flatMap.mp hp
    obtain ⟨j, hj, rfl⟩ := List.mem_map.mp hp2
    dsimp only
    by_cases hid : (options.getD j default).id = o.id
    · right
      have hjlt : j < options.length := List.mem_range.mp hj
      have hilt : i < options.length := List.mem_range.mp hi
      have hmem2 : options.getD j default ∈ options := by
        rw [List.getD_eq_getElem options default hjlt]
        exact List.getElem_mem hjlt
      have hmem1 : options.getD i default ∈ options := by
        rw [List.getD_eq_getElem options default hilt]
        exact List.getElem_mem hilt
      have heq : options.getD j default = o :=
        List.inj_on_of_nodup_map hnodup hmem2 ho hid
      rw [heq]
      exact hmax _ hmem1
    · exact Or.inl hid
  have hlook := foldl_dominanceStep_lookup options constraints o.id _
    (options.foldl (fun m o => mapSet m o.id ([] : List String)) [],
     options.foldl (fun m o => mapSet m o.id ([] : List String)) []) hpairs
  have hinit := initMap_lookup options [] o.id
    (Or.inl (List.mem_map_of_mem _ ho))
  apply List.ne_nil_of_mem
  refine List.mem_map.mpr ⟨o, ?_, rfl⟩
  rw [List.mem_filter]
  refine ⟨ho, ?_⟩
  rw [hlook]
  dsimp only
  rw [hinit]
  simp

/-- C3, witness: `claim_C3` at the concrete scoring result `sr2` with options
`optA2, optB2` and constraints `cs2`. -/
theorem claim_C3_witness :
    (TradeOffAnalyzer.validateInputs sr2 [optA2, optB2] cs2).isValid = true ∧
    (∀ t, TradeOffAnalyzer.analyzeTradeOffs sr2 [optA2, optB2] cs2 =
      Result.success t →
    t.dominanceRelations.paretoFrontier ≠ []) :=
  ⟨rfl, claim_C3 sr2 [optA2, optB2] cs2 rfl (by decide) (List.cons_ne_nil _ _)⟩

/-! ## C5: ranking order, dense ranks, stable ties -/

theorem TOPSISEngine.rankLE_trans :
    ∀ (a b c : TOPSISEngine.IndexedRanking), TOPSISEngine.rankLE a b = true →
      TOPSISEngine.rankLE b c = true → TOPSISEngine.rankLE a c = true := by
  intro a b c h1 h2
  unfold TOPSISEngine.rankLE at h1 h2 ⊢
  rw [decide_eq_true_eq] at h1 h2 ⊢
  exact le_trans h2 h1

theorem TOPSISEngine.rankLE_total :
    ∀ (a b : TOPSISEngine.IndexedRanking),
      (TOPSISEngine.rankLE a b || TOPSISEngine.rankLE b a) = true := by
  intro a b
  unfold TOPSISEngine.rankLE
  rw [Bool.or_eq_true, decide_eq_true_eq, decide_eq_true_eq]
  exact le_total _ _

/-- The rankings list is ordered by closeness score, non-increasing. -/
theorem TOPSISEngine.generateRankings_sorted (options : List Option')
    (cl : List ℝ) (wm : List (List ℝ)) (cs : List Constraint) :
    (TOPSISEngine.generateRankings options cl wm cs).Pairwise
      (fun a b => b.closenessScore ≤ a.closenessScore) := by
  unfold TOPSISEngine.generateRankings
  dsimp only
  rw [List.pairwise_map]
  have hs : ((options.enum.map (fun p : ℕ × Option' =>
      TOPSISEngine.IndexedRanking.mk p.2 p.1 (cl.getD p.1 0))).mergeSort
      TOPSISEngine.rankLE).Pairwise
      (fun a b => b.closenessScore ≤ a.closenessScore) := by
    refine (List.sorted_mergeSort TOPSISEngine.rankLE_trans TOPSISEngine.rankLE_total
      _).imp ?_
    intro a b h
    unfold TOPSISEngine.rankLE at h
    exact decide_eq_true_eq.mp h
  have hsnd := List.enum_map_snd ((options.enum.map (fun p : ℕ × Option' =>
      TOPSISEngine.IndexedRanking.mk p.2 p.1 (cl.getD p.1 0))).mergeSort
      TOPSISEngine.rankLE)
  rw [← hsnd] at hs
  exact List.pairwise_map.mp hs

/-- The rank fields are exactly `1, 2, ..., N` in list order. -/
theorem TOPSISEngine.generateRankings_ranks (options : List Option')
    (cl : List ℝ) (wm : List (List ℝ)) (cs : List Constraint) :
    (TOPSISEngine.generateRankings options cl wm cs).map (fun rk => rk.rank) =
      List.range' 1 options.length := by
  unfold TOPSISEngine.generateRankings
  dsimp only
  rw [List.map_map]
  have h1 : ∀ n, List.range' 1 n = (List.range n).map (fun x => x + 1) := by
    intro n
    rw [List.range'_eq_map_range]
    exact List.map_congr_left (fun x _ => Nat.add_comm 1 x)
  rw [h1]
  have hlen : ((options.enum.map (fun p =>
      TOPSISEngine.IndexedRanking.mk p.2 p.1 (cl.getD p.1 0))).mergeSort
      TOPSISEngine.rankLE).length = options.length := by
    rw [List.length_mergeSort, List.length_map, List.enum_length]
  rw [← hlen, ← List.enum_map_fst ((options.enum.map (fun p =>
      TOPSISEngine.IndexedRanking.mk p.2 p.1 (cl.getD p.1 0))).mergeSort
      TOPSISEngine.rankLE), List.map_map]
  rfl

/-- Ties keep input order: for any closeness value `v` the sub-list of
rankings at `v` lists the option ids exactly in enumeration order. -/
theorem TOPSISEngine.generateRankings_stable (options : List Option')
    (cl : List ℝ) (wm : List (List ℝ)) (cs : List Constraint) (v : ℝ) :
    ((TOPSISEngine.generateRankings options cl wm cs).filter
        (fun rk => decide (rk.closenessScore = v))).map (fun rk => rk.option.id) =
      ((options.enum.filter (fun q => decide (cl.getD q.1 0 = v))).map
        (fun q => q.2.id)) := by
  unfold TOPSISEngine.generateRankings
  dsimp only
  rw [List.filter_map, List.map_map]
  show (((options.enum.map (fun p =>
      TOPSISEngine.IndexedRanking.mk p.2 p.1 (cl.getD p.1 0))).mergeSort
      TOPSISEngine.rankLE).enum.filter
      ((fun x : TOPSISEngine.IndexedRanking => decide (x.closenessScore = v)) ∘
        Prod.snd)).map
      ((fun x : TOPSISEngine.IndexedRanking => x.option.id) ∘ Prod.snd) = _
  rw [← List.map_map, ← List.filter_map, List.enum_map_snd]
  have hstab : ((options.enum.map (fun p =>
      TOPSISEngine.IndexedRanking.mk p.2 p.1 (cl.getD p.1 0))).mergeSort
      TOPSISEngine.rankLE).filter
        (fun x => decide (x.closenessScore = v)) =
      (options.enum.map (fun p =>
        TOPSISEngine.IndexedRanking.mk p.2 p.1 (cl.getD p.1 0))).filter
        (fun x => decide (x.closenessScore = v)) := by
    have hsub : List.Sublist ((options.enum.map (fun p =>
        TOPSISEngine.IndexedRanking.mk p.2 p.1 (cl.getD p.1 0))).filter
          (fun x => decide (x.closenessScore = v)))
        ((options.enum.map (fun p =>
          TOPSISEngine.IndexedRanking.mk p.2 p.1 (cl.getD p.1 0))).mergeSort
          TOPSISEngine.rankLE) := by
      apply List.sublist_mergeSort TOPSISEngine.rankLE_trans TOPSISEngine.rankLE_total
      · apply List.pairwise_of_forall_mem_list
        intro a ha b hb
        have hav := (List.mem_filter.mp ha).2
        have hbv := (List.mem_filter.mp hb).2
        rw [decide_eq_true_eq] at hav hbv
        unfold TOPSISEngine.rankLE
        rw [decide_eq_true_eq, hav, hbv]
      · exact List.filter_sublist _
    have hperm : (((options.enum.map (fun p =>
        TOPSISEngine.IndexedRanking.mk p.2 p.1 (cl.getD p.1 0))).mergeSort
        TOPSISEngine.rankLE).filter (fun x => decide (x.closenessScore = v))).Perm
        ((options.enum.map (fun p =>
          TOPSISEngine.IndexedRanking.mk p.2 p.1 (cl.getD p.1 0))).filter
          (fun x => decide (x.closenessScore = v))) :=
      (List.mergeSort_perm _ _).filter _
    have hsub2 : List.Sublist ((options.enum.map (fun p =>
        TOPSISEngine.IndexedRanking.mk p.2 p.1 (cl.getD p.1 0))).filter
          (fun x => decide (x.closenessScore = v)))
        (((options.enum.map (fun p =>
          TOPSISEngine.IndexedRanking.mk p.2 p.1 (cl.getD p.1 0))).mergeSort
          TOPSISEngine.rankLE).filter (fun x => decide (x.closenessScore = v))) := by
      have h2 := hsub.filter (fun x => decide (x.closenessScore = v))
      rwa [List.filter_eq_self.mpr (fun a ha => (List.mem_filter.mp ha).2)] at h2
    exact (hsub2.eq_of_length hperm.length_eq.symm).symm
  rw [hstab, List.filter_map, List.map_map]
  rfl

/-- A duplicate-free association list looks up any stored pair. -/
theorem lookup_of_nodup_mem {β : Type} {kvs : List (String × β)}
    (hnd : (kvs.map Prod.fst).Nodup) {k : String} {b : β}
    (hmem : (k, b) ∈ kvs) : kvs.lookup k = some b := by
  induction kvs with
  | nil => cases hmem
  | cons p rest ih =>
    obtain ⟨pk, pv⟩ := p
    rcases List.mem_cons.mp hmem with heq | hmem'
    · obtain ⟨hk, hb⟩ := Prod.mk.injEq .. ▸ heq
      subst hk
      subst hb
      simp [List.lookup]
    · have hk : k ≠ pk := by
        intro h
        subst h
        rw [List.map_cons] at hnd
        exact (List.nodup_cons.mp hnd).1
          (List.mem_map.mpr ⟨(k, b), hmem', rfl⟩)
      have hkk : (k == pk) = false := by
        simp only [beq_eq_false_iff_ne, ne_eq]
        exact hk
      simp only [List.lookup, hkk]
      rw [List.map_cons] at hnd
      exact ih (List.nodup_cons.mp hnd).2 hmem'

/-- Rewriting an option-level filter through the enumeration. -/
theorem filter_enum_form (options : List Option') (pred : Option' → Bool) :
    (options.filter pred).map (fun o => o.id) =
      ((options.enum.filter (fun q => pred q.2)).map (fun q => q.2.id)) := by
  conv_lhs => rw [← List.enum_map_snd options]
  rw [List.filter_map, List.map_map]
  rfl

/-- C5: the rankings of a validated scoring run are ordered by closeness
score non-increasing, carry the dense rank sequence `1..N`, and break ties by
the original input order (for every closeness value, the tied option ids
appear exactly in input order). -/
theorem claim_C5 (options : List Option') (constraints : List Constraint)
    (hvalid : (TOPSISEngine.validateInputs options constraints).isValid = true)
    (hnodup : (options.map (fun o => o.id)).Nodup) :
    ∀ r, TOPSISEngine.calculateScores options constraints = Result.success r →
      r.rankings.Pairwise (fun a b => b.closenessScore ≤ a.closenessScore) ∧
      r.rankings.map (fun rk => rk.rank) = List.range' 1 options.length ∧
      ∀ v : ℝ, (r.rankings.filter (fun rk => decide (rk.closenessScore = v))).map
          (fun rk => rk.option.id) =
        (options.filter (fun o =>
          decide ((r.closenessScores.lookup o.id).getD 0 = v))).map (fun o => o.id) := by
  intro r hr
  rw [TOPSISEngine.calculateScores_of_valid hvalid] at hr
  cases hr
  have hrank : (TOPSISEngine.computeScoringResult options constraints).rankings =
      TOPSISEngine.generateRankings options (TOPSISEngine.closenessListOf options constraints)
        (TOPSISEngine.weightedMatrixOf options constraints) constraints := rfl
  have hclm : (TOPSISEngine.computeScoringResult options constraints).closenessScores =
      options.enum.map (fun p =>
        (p.2.id, (TOPSISEngine.closenessListOf options constraints).getD p.1 0)) := rfl
  rw [hrank, hclm]
  refine ⟨TOPSISEngine.generateRankings_sorted options _ _ constraints,
    TOPSISEngine.generateRankings_ranks options _ _ constraints, ?_⟩
  intro v
  rw [TOPSISEngine.generateRankings_stable options _ _ constraints v]
  rw [filter_enum_form]
  apply congrArg
  apply List.filter_congr
  intro q hq
  have hmem : (q.2.id, (TOPSISEngine.closenessListOf options constraints).getD q.1 0) ∈
      options.enum.map (fun p =>
        (p.2.id, (TOPSISEngine.closenessListOf options constraints).getD p.1 0)) :=
    List.mem_map.mpr ⟨q, hq, rfl⟩
  have hkeys : ((options.enum.map (fun p =>
      (p.2.id, (TOPSISEngine.closenessListOf options constraints).getD p.1 0))).map
      Prod.fst).Nodup := by
    rw [List.map_map]
    show ((options.enum.map ((fun o => o.id) ∘ Prod.snd))).Nodup
    rw [← List.map_map, List.enum_map_snd]
    exact hnodup
  have hlk := lookup_of_nodup_mem hkeys hmem
  rw [hlk, Option.getD_some]

/-- C5, witness: `claim_C5` at the two-option, one-constraint input. -/
theorem claim_C5_witness :
    (TOPSISEngine.validateInputs twoOptions cs8).isValid = true ∧
    (∀ r, TOPSISEngine.calculateScores twoOptions cs8 = Result.success r →
      r.rankings.Pairwise (fun a b => b.closenessScore ≤ a.closenessScore) ∧
      r.rankings.map (fun rk => rk.rank) = List.range' 1 twoOptions.length ∧
      ∀ v : ℝ, (r.rankings.filter (fun rk => decide (rk.closenessScore = v))).map
          (fun rk => rk.option.id) =
        (twoOptions.filter (fun o =>
          decide ((r.closenessScores.lookup o.id).getD 0 = v))).map (fun o => o.id)) :=
  ⟨by decide, claim_C5 twoOptions cs8 (by decide) (by decide)⟩

/-! ## C6: ranking invariance under positive weight scaling -/

/-- The input with every criterion weight multiplied by `c`. -/
noncomputable def scaleConstraints (c : ℝ) (constraints : List Constraint) :
    List Constraint :=
  constraints.map (fun k => { k with weight := JSNum.num (c * k.weight.val) })

/-- Facts recovered from a successful engine validation. -/
theorem TOPSISEngine.validateInputs_facts {options : List Option'}
    {constraints : List Constraint}
    (h : (TOPSISEngine.validateInputs options constraints).isValid = true) :
    2 ≤ options.length ∧ 0 < constraints.length ∧
    (∀ o ∈ options, ∀ k ∈ constraints, TOPSISEngine.scoreError o k = []) ∧
    (∀ k ∈ constraints, TOPSISEngine.weightError k = []) := by
  have herr : (TOPSISEngine.validateInputs options constraints).errors = [] :=
    List.isEmpty_iff.mp h
  rw [TOPSISEngine.validateInputs_errors, List.append_eq_nil, List.append_eq_nil,
    List.append_eq_nil] at herr
  obtain ⟨⟨⟨hA, hB⟩, hS⟩, hW⟩ := herr
  have h1 : ¬ options.length < 2 := by
    intro hlt
    rw [if_pos hlt] at hA
    cases hA
  have h2 : ¬ constraints.length = 0 := by
    intro h0
    rw [if_pos h0] at hB
    cases hB
  refine ⟨by omega, by omega, ?_, ?_⟩
  · intro o ho k hk
    rw [if_pos ⟨by omega, by omega⟩] at hS
    exact (List.flatMap_eq_nil_iff.mp ((List.flatMap_eq_nil_iff.mp hS) o ho)) k hk
  · intro k hk
    rw [if_pos (by omega)] at hW
    exact List.flatMap_eq_nil_iff.mp hW k hk

/-- Scaling weights keeps the engine validation successful. -/
theorem TOPSISEngine.validateInputs_scale {options : List Option'}
    {constraints : List Constraint}
    (h : (TOPSISEngine.validateInputs options constraints).isValid = true) (c : ℝ) :
    (TOPSISEngine.validateInputs options (scaleConstraints c constraints)).isValid =
      true := by
  obtain ⟨h1, h2, h3, -⟩ := TOPSISEngine.validateInputs_facts h
  refine TOPSISEngine.validateInputs_isValid_of h1 (by simpa [scaleConstraints] using h2)
    ?_ ?_
  · intro o ho k' hk'
    unfold scaleConstraints at hk'
    obtain ⟨k, hk, rfl⟩ := List.mem_map.mp hk'
    exact h3 o ho k hk
  · intro k' hk'
    unfold scaleConstraints at hk'
    obtain ⟨k, hk, rfl⟩ := List.mem_map.mp hk'
    simp [TOPSISEngine.weightError, JSNum.isFiniteNum]

/-- Scaling weights does not change the decision matrix. -/
theorem TOPSISEngine.buildDecisionMatrix_scale (c : ℝ) (options : List Option')
    (constraints : List Constraint) :
    TOPSISEngine.buildDecisionMatrix options (scaleConstraints c constraints) =
      TOPSISEngine.buildDecisionMatrix options constraints := by
  unfold TOPSISEngine.buildDecisionMatrix scaleConstraints
  refine List.map_congr_left (fun o _ => ?_)
  rw [List.map_map]
  rfl

/-- Normalization only reads the number of constraints. -/
theorem TOPSISEngine.normalizeMatrix_cs_irrel (dm : List (List ℝ))
    (cs cs' : List Constraint) (hlen : cs'.length = cs.length) :
    TOPSISEngine.normalizeMatrix dm cs' = TOPSISEngine.normalizeMatrix dm cs := by
  unfold TOPSISEngine.normalizeMatrix
  rw [hlen]

/-- Reading a `map (c * ·)`-scaled list through `getD _ 0` scales the read. -/
theorem getD_map_mul (c : ℝ) (row : List ℝ) (j : ℕ) :
    (row.map (fun x => c * x)).getD j 0 = c * row.getD j 0 := by
  rcases Nat.lt_or_ge j row.length with hj | hj
  · rw [List.getD_eq_getElem _ _ (by simpa using hj), List.getElem_map,
      List.getD_eq_getElem _ _ hj]
  · rw [List.getD_eq_default _ _ (by simpa using hj), List.getD_eq_default _ _ hj,
      mul_zero]

theorem scaleConstraints_length (c : ℝ) (cs : List Constraint) :
    (scaleConstraints c cs).length = cs.length := by
  simp [scaleConstraints]

theorem scaleConstraints_getD (c : ℝ) (cs : List Constraint) (j : ℕ)
    (hj : j < cs.length) :
    (scaleConstraints c cs).getD j default =
      { id := (cs.getD j default).id, name := (cs.getD j default).name,
        weight := JSNum.num (c * (cs.getD j default).weight.val),
        direction := (cs.getD j default).direction } := by
  unfold scaleConstraints
  rw [List.getD_eq_getElem _ default (by simpa using hj), List.getElem_map,
    List.getD_eq_getElem cs default hj]

/-- Applying the scaled weights scales every weighted entry by `c`. -/
theorem TOPSISEngine.applyWeights_scale (c : ℝ) (nm : List (List ℝ))
    (cs : List Constraint) :
    TOPSISEngine.applyWeights nm (scaleConstraints c cs) =
      (TOPSISEngine.applyWeights nm cs).map (fun row => row.map (fun x => c * x)) := by
  unfold TOPSISEngine.applyWeights
  rw [List.map_map]
  refine List.map_congr_left (fun row _ => ?_)
  dsimp only [Function.comp]
  rw [scaleConstraints_length, List.map_map]
  refine List.map_congr_left (fun j hj => ?_)
  have hj' : j < cs.length := List.mem_range.mp hj
  dsimp only [Function.comp]
  rw [scaleConstraints_getD c cs j hj']
  show row.getD j 0 * ((c * (cs.getD j default).weight.val) / 100) =
    c * (row.getD j 0 * ((cs.getD j default).weight.val / 100))
  ring

theorem foldl_max_mul {c : ℝ} (hc : 0 ≤ c) :
    ∀ (xs : List ℝ) (x : ℝ),
    (xs.map (fun y => c * y)).foldl max (c * x) = c * xs.foldl max x := by
  intro xs
  induction xs with
  | nil => intro x; rfl
  | cons y ys ih =>
    intro x
    dsimp only [List.map, List.foldl]
    rw [← mul_max_of_nonneg _ _ hc]
    exact ih (max x y)

theorem foldl_min_mul {c : ℝ} (hc : 0 ≤ c) :
    ∀ (xs : List ℝ) (x : ℝ),
    (xs.map (fun y => c * y)).foldl min (c * x) = c * xs.foldl min x := by
  intro xs
  induction xs with
  | nil => intro x; rfl
  | cons y ys ih =>
    intro x
    dsimp only [List.map, List.foldl]
    rw [← mul_min_of_nonneg _ _ hc]
    exact ih (min x y)

theorem TOPSISEngine.listMax_mul {c : ℝ} (hc : 0 ≤ c) (col : List ℝ) :
    TOPSISEngine.listMax (col.map (fun x => c * x)) = c * TOPSISEngine.listMax col := by
  cases col with
  | nil => exact (mul_zero c).symm
  | cons x xs =>
    dsimp only [List.map]
    unfold TOPSISEngine.listMax
    exact foldl_max_mul hc xs x

theorem TOPSISEngine.listMin_mul {c : ℝ} (hc : 0 ≤ c) (col : List ℝ) :
    TOPSISEngine.listMin (col.map (fun x => c * x)) = c * TOPSISEngine.listMin col := by
  cases col with
  | nil => exact (mul_zero c).symm
  | cons x xs =>
    dsimp only [List.map]
    unfold TOPSISEngine.listMin
    exact foldl_min_mul hc xs x

/-- Ideal and negative-ideal vectors scale with the weighted matrix. -/
theorem TOPSISEngine.calculateIdealSolutions_scale {c : ℝ} (hc : 0 ≤ c)
    (wm : List (List ℝ)) (cs : List Constraint) :
    TOPSISEngine.calculateIdealSolutions
      (wm.map (fun row => row.map (fun x => c * x))) (scaleConstraints c cs) =
    ((TOPSISEngine.calculateIdealSolutions wm cs).1.map (fun x => c * x),
     (TOPSISEngine.calculateIdealSolutions wm cs).2.map (fun x => c * x)) := by
  have hcol : ∀ j, (wm.map (fun row => row.map (fun x => c * x))).map
      (fun row => row.getD j 0) =
      (wm.map (fun row => row.getD j 0)).map (fun x => c * x) := by
    intro j
    rw [List.map_map, List.map_map]
    exact List.map_congr_left (fun row _ => getD_map_mul c row j)
  have hdir : ∀ j, j < cs.length →
      (((scaleConstraints c cs).getD j default).direction) =
      ((cs.getD j default).direction) := by
    intro j hj'
    unfold scaleConstraints
    rw [List.getD_eq_getElem _ _ (by simpa using hj'), List.getElem_map,
      List.getD_eq_getElem cs default hj']
  unfold TOPSISEngine.calculateIdealSolutions
  have hlen : (scaleConstraints c cs).length = cs.length := by
    simp [scaleConstraints]
  rw [hlen]
  refine Prod.ext ?_ ?_
  · dsimp only
    rw [List.map_map]
    refine List.map_congr_left (fun j hj => ?_)
    have hj' : j < cs.length := List.mem_range.mp hj
    dsimp only [Function.comp]
    rw [hdir j hj', hcol j]
    cases hdd : (cs.getD j default).direction
    · exact TOPSISEngine.listMax_mul hc _
    · exact TOPSISEngine.listMin_mul hc _
  · dsimp only
    rw [List.map_map]
    refine List.map_congr_left (fun j hj => ?_)
    have hj' : j < cs.length := List.mem_range.mp hj
    dsimp only [Function.comp]
    rw [hdir j hj', hcol j]
    cases hdd : (cs.getD j default).direction
    · exact TOPSISEngine.listMin_mul hc _
    · exact TOPSISEngine.listMax_mul hc _

/-- A Euclidean distance of `c`-scaled vectors is `c` times the distance. -/
theorem sqrt_sum_scale {c : ℝ} (hc : 0 ≤ c) (row tgt : List ℝ) :
    Real.sqrt (((List.range (row.map (fun x => c * x)).length).map (fun j =>
      ((row.map (fun x => c * x)).getD j 0 - (tgt.map (fun x => c * x)).getD j 0) *
      ((row.map (fun x => c * x)).getD j 0 - (tgt.map (fun x => c * x)).getD j 0))).sum) =
    c * Real.sqrt (((List.range row.length).map (fun j =>
      (row.getD j 0 - tgt.getD j 0) * (row.getD j 0 - tgt.getD j 0))).sum) := by
  rw [List.length_map]
  have hterm : (List.range row.length).map (fun j =>
      ((row.map (fun x => c * x)).getD j 0 - (tgt.map (fun x => c * x)).getD j 0) *
      ((row.map (fun x => c * x)).getD j 0 - (tgt.map (fun x => c * x)).getD j 0)) =
      (List.range row.length).map (fun j => c ^ 2 *
        ((row.getD j 0 - tgt.getD j 0) * (row.getD j 0 - tgt.getD j 0))) := by
    refine List.map_congr_left (fun j _ => ?_)
    dsimp only
    rw [getD_map_mul, getD_map_mul]
    ring
  rw [hterm, List.sum_map_mul_left, Real.sqrt_mul (sq_nonneg c), Real.sqrt_sq hc]

/-- Distances scale with the weighted matrix and the ideal vectors. -/
theorem TOPSISEngine.calculateDistances_scale {c : ℝ} (hc : 0 ≤ c)
    (wm : List (List ℝ)) (ideal neg : List ℝ) :
    TOPSISEngine.calculateDistances (wm.map (fun row => row.map (fun x => c * x)))
      (ideal.map (fun x => c * x)) (neg.map (fun x => c * x)) =
    ((TOPSISEngine.calculateDistances wm ideal neg).1.map (fun x => c * x),
     (TOPSISEngine.calculateDistances wm ideal neg).2.map (fun x => c * x)) := by
  unfold TOPSISEngine.calculateDistances
  refine Prod.ext ?_ ?_
  · dsimp only
    rw [List.map_map, List.map_map]
    exact List.map_congr_left (fun row _ => sqrt_sum_scale hc row ideal)
  · dsimp only
    rw [List.map_map, List.map_map]
    exact List.map_congr_left (fun row _ => sqrt_sum_scale hc row neg)

/-- Closeness scores are invariant under scaling both distance lists by a
positive constant. -/
theorem TOPSISEngine.calculateClosenessScores_scale {c : ℝ} (hc : 0 < c)
    (pd nd : List ℝ) :
    TOPSISEngine.calculateClosenessScores (pd.map (fun x => c * x))
      (nd.map (fun x => c * x)) =
      TOPSISEngine.calculateClosenessScores pd nd := by
  unfold TOPSISEngine.calculateClosenessScores
  rw [List.length_map]
  refine List.map_congr_left (fun i _ => ?_)
  dsimp only
  rw [getD_map_mul, getD_map_mul, ← mul_add]
  by_cases h0 : pd.getD i 0 + nd.getD i 0 = 0
  · rw [if_pos h0, if_pos (by rw [h0, mul_zero])]
  · rw [if_neg (by
      intro hcc
      exact h0 ((mul_eq_zero.mp hcc).resolve_left (ne_of_gt hc))), if_neg h0]
    rw [mul_div_mul_left _ _ (ne_of_gt hc)]

/-- The `(id, rank, closeness)` content of the rankings does not depend on
the weighted matrix or the constraints (they only feed the tag fields). -/
theorem TOPSISEngine.generateRankings_map_eq (options : List Option') (cl : List ℝ)
    (wm wm' : List (List ℝ)) (cs cs' : List Constraint) :
    (TOPSISEngine.generateRankings options cl wm' cs').map
        (fun rk => (rk.option.id, rk.rank, rk.closenessScore)) =
      (TOPSISEngine.generateRankings options cl wm cs).map
        (fun rk => (rk.option.id, rk.rank, rk.closenessScore)) := by
  unfold TOPSISEngine.generateRankings
  dsimp only
  rw [List.map_map, List.map_map]
  refine List.map_congr_left (fun p _ => rfl)

/-- C6: multiplying every criterion weight by a positive constant `c` leaves
the ranking unchanged: same option order, same rank numbers, and even the
same closeness scores. -/
theorem claim_C6 (options : List Option') (constraints : List Constraint) (c : ℝ)
    (hc : 0 < c)
    (hvalid : (TOPSISEngine.validateInputs options constraints).isValid = true) :
    ∀ r, TOPSISEngine.calculateScores options constraints = Result.success r →
    ∃ r', TOPSISEngine.calculateScores options (scaleConstraints c constraints) =
        Result.success r' ∧
      r'.rankings.map (fun rk => (rk.option.id, rk.rank)) =
        r.rankings.map (fun rk => (rk.option.id, rk.rank)) ∧
      r'.rankings.map (fun rk => rk.closenessScore) =
        r.rankings.map (fun rk => rk.closenessScore) := by
  intro r hr
  rw [TOPSISEngine.calculateScores_of_valid hvalid] at hr
  cases hr
  have hvalid' := TOPSISEngine.validateInputs_scale hvalid c
  have hdm := TOPSISEngine.buildDecisionMatrix_scale c options constraints
  have hnm : TOPSISEngine.normalizedMatrixOf options (scaleConstraints c constraints) =
      TOPSISEngine.normalizedMatrixOf options constraints := by
    unfold TOPSISEngine.normalizedMatrixOf
    rw [hdm]
    exact TOPSISEngine.normalizeMatrix_cs_irrel _ _ _ (by simp [scaleConstraints])
  have hwm : TOPSISEngine.weightedMatrixOf options (scaleConstraints c constraints) =
      (TOPSISEngine.weightedMatrixOf options constraints).map
        (fun row => row.map (fun x => c * x)) := by
    unfold TOPSISEngine.weightedMatrixOf
    rw [hnm]
    exact TOPSISEngine.applyWeights_scale c _ _
  have hideals : TOPSISEngine.idealsOf options (scaleConstraints c constraints) =
      ((TOPSISEngine.idealsOf options constraints).1.map (fun x => c * x),
       (TOPSISEngine.idealsOf options constraints).2.map (fun x => c * x)) := by
    unfold TOPSISEngine.idealsOf
    rw [hwm]
    exact TOPSISEngine.calculateIdealSolutions_scale hc.le _ _
  have hdist : TOPSISEngine.distancesOf options (scaleConstraints c constraints) =
      ((TOPSISEngine.distancesOf options constraints).1.map (fun x => c * x),
       (TOPSISEngine.distancesOf options constraints).2.map (fun x => c * x)) := by
    unfold TOPSISEngine.distancesOf
    rw [hwm, hideals]
    exact TOPSISEngine.calculateDistances_scale hc.le _ _ _
  have hcl : TOPSISEngine.closenessListOf options (scaleConstraints c constraints) =
      TOPSISEngine.closenessListOf options constraints := by
    unfold TOPSISEngine.closenessListOf
    rw [hdist]
    exact TOPSISEngine.calculateClosenessScores_scale hc _ _
  have hr' : (TOPSISEngine.computeScoringResult options
      (scaleConstraints c constraints)).rankings =
      TOPSISEngine.generateRankings options
        (TOPSISEngine.closenessListOf options constraints)
        (TOPSISEngine.weightedMatrixOf options (scaleConstraints c constraints))
        (scaleConstraints c constraints) := by
    show TOPSISEngine.generateRankings options
      (TOPSISEngine.closenessListOf options (scaleConstraints c constraints)) _ _ = _
    rw [hcl]
  have hR : (TOPSISEngine.computeScoringResult options constraints).rankings =
      TOPSISEngine.generateRankings options
        (TOPSISEngine.closenessListOf options constraints)
        (TOPSISEngine.weightedMatrixOf options constraints) constraints := rfl
  have htriple := TOPSISEngine.generateRankings_map_eq options
    (TOPSISEngine.closenessListOf options constraints)
    (TOPSISEngine.weightedMatrixOf options constraints)
    (TOPSISEngine.weightedMatrixOf options (scaleConstraints c constraints))
    constraints (scaleConstraints c constraints)
  refine ⟨_, TOPSISEngine.calculateScores_of_valid hvalid', ?_, ?_⟩
  · rw [hr', hR]
    have hpair := congrArg (List.map (fun t : String × ℕ × ℝ => (t.1, t.2.1))) htriple
    rw [List.map_map, List.map_map] at hpair
    exact hpair
  · rw [hr', hR]
    have hclose := congrArg (List.map (fun t : String × ℕ × ℝ => t.2.2)) htriple
    rw [List.map_map, List.map_map] at hclose
    exact hclose

/-- C6, witness: `claim_C6` at the two-option, one-constraint input with
scaling constant 2. -/
theorem claim_C6_witness :
    ((0 : ℝ) < 2 ∧ (TOPSISEngine.validateInputs twoOptions cs8).isValid = true) ∧
    (∀ r, TOPSISEngine.calculateScores twoOptions cs8 = Result.success r →
    ∃ r', TOPSISEngine.calculateScores twoOptions (scaleConstraints 2 cs8) =
        Result.success r' ∧
      r'.rankings.map (fun rk => (rk.option.id, rk.rank)) =
        r.rankings.map (fun rk => (rk.option.id, rk.rank)) ∧
      r'.rankings.map (fun rk => rk.closenessScore) =
        r.rankings.map (fun rk => rk.closenessScore)) :=
  ⟨⟨two_pos, by decide⟩, claim_C6 twoOptions cs8 2 two_pos (by decide)⟩

/-! ## C9: the concrete three-supplier scenario -/

/-- Supplier A of the concrete scenario: cost 250, quality 16, delivery 8.5,
service 5. -/
noncomputable def supplierA : Option' :=
  ⟨"A", "Supplier A",
    [("cost", JSNum.num 250), ("quality", JSNum.num 16),
     ("delivery", JSNum.num (17 / 2)), ("service", JSNum.num 5)]⟩

noncomputable def supplierB : Option' :=
  ⟨"B", "Supplier B",
    [("cost", JSNum.num 200), ("quality", JSNum.num 16),
     ("delivery", JSNum.num 9), ("service", JSNum.num 4)]⟩

noncomputable def supplierC : Option' :=
  ⟨"C", "Supplier C",
    [("cost", JSNum.num 300), ("quality", JSNum.num 32),
     ("delivery", JSNum.num 7), ("service", JSNum.num 4)]⟩

noncomputable def suppliers : List Option' := [supplierA, supplierB, supplierC]

noncomputable def supplierConstraints : List Constraint :=
  [⟨"cost", "Cost", JSNum.num 30, Direction.minimize⟩,
   ⟨"quality", "Quality", JSNum.num 40, Direction.maximize⟩,
   ⟨"delivery", "Delivery", JSNum.num 20, Direction.maximize⟩,
   ⟨"service", "Service", JSNum.num 10, Direction.maximize⟩]

theorem suppliers_dm : TOPSISEngine.buildDecisionMatrix suppliers supplierConstraints =
    [[250, 16, 17 / 2, 5], [200, 16, 9, 4], [300, 32, 7, 4]] := by
  unfold TOPSISEngine.buildDecisionMatrix suppliers supplierConstraints
  unfold supplierA supplierB supplierC
  simp [scoreOf, List.lookup, JSNum.val]

/-- A single weighted-matrix entry: raw score `x`, column sum of squares `S`,
weight `w`. -/
noncomputable def wv (x S w : ℝ) : ℝ := x / Real.sqrt S * (w / 100)

theorem suppliers_wm : TOPSISEngine.weightedMatrixOf suppliers supplierConstraints =
    [[wv 250 192500 30, wv 16 1536 40, wv (17 / 2) (809 / 4) 20, wv 5 57 10],
     [wv 200 192500 30, wv 16 1536 40, wv 9 (809 / 4) 20, wv 4 57 10],
     [wv 300 192500 30, wv 32 1536 40, wv 7 (809 / 4) 20, wv 4 57 10]] := by
  unfold TOPSISEngine.weightedMatrixOf TOPSISEngine.normalizedMatrixOf
  rw [suppliers_dm]
  unfold TOPSISEngine.applyWeights TOPSISEngine.normalizeMatrix wv
  simp [supplierConstraints, show List.range 4 = [0, 1, 2, 3] from rfl, JSNum.val]
  norm_num

theorem wv_le {x y S w : ℝ} (h : x ≤ y) (hS : 0 < S) (hw : 0 ≤ w) :
    wv x S w ≤ wv y S w := by
  unfold wv
  have hs : 0 < Real.sqrt S := Real.sqrt_pos.mpr hS
  gcongr

theorem suppliers_ideals : TOPSISEngine.idealsOf suppliers supplierConstraints =
    ([wv 200 192500 30, wv 32 1536 40, wv 9 (809 / 4) 20, wv 5 57 10],
     [wv 300 192500 30, wv 16 1536 40, wv 7 (809 / 4) 20, wv 4 57 10]) := by
  unfold TOPSISEngine.idealsOf
  rw [suppliers_wm]
  unfold TOPSISEngine.calculateIdealSolutions
  unfold TOPSISEngine.listMax TOPSISEngine.listMin
  simp [supplierConstraints, show List.range 4 = [0, 1, 2, 3] from rfl]
  refine ⟨⟨?_, wv_le (by norm_num) (by norm_num) (by norm_num), ?_,
      wv_le (by norm_num) (by norm_num) (by norm_num)⟩,
    ⟨wv_le (by norm_num) (by norm_num) (by norm_num),
     wv_le (by norm_num) (by norm_num) (by norm_num)⟩,
    wv_le (by norm_num) (by norm_num) (by norm_num),
    ⟨wv_le (by norm_num) (by norm_num) (by norm_num),
     wv_le (by norm_num) (by norm_num) (by norm_num)⟩,
    wv_le (by norm_num) (by norm_num) (by norm_num)⟩
  · rw [inf_eq_right.mpr (wv_le (by norm_num) (by norm_num) (by norm_num) :
        wv 200 192500 30 ≤ wv 250 192500 30),
      inf_eq_left.mpr (wv_le (by norm_num) (by norm_num) (by norm_num) :
        wv 200 192500 30 ≤ wv 300 192500 30)]
  · rw [sup_eq_right.mpr (wv_le (by norm_num) (by norm_num) (by norm_num) :
        wv (17 / 2) (809 / 4) 20 ≤ wv 9 (809 / 4) 20),
      sup_eq_left.mpr (wv_le (by norm_num) (by norm_num) (by norm_num) :
        wv 7 (809 / 4) 20 ≤ wv 9 (809 / 4) 20)]

theorem wv_sub_sq {S : ℝ} (hS : 0 < S) (x e w : ℝ) :
    (wv x S w - wv e S w) * (wv x S w - wv e S w) =
      (x - e) * (x - e) * (w * w) / (10000 * S) := by
  have h0 : Real.sqrt S ≠ 0 := ne_of_gt (Real.sqrt_pos.mpr hS)
  have hss : Real.sqrt S * Real.sqrt S = S := Real.mul_self_sqrt hS.le
  have key : wv x S w - wv e S w = (x - e) * w / (100 * Real.sqrt S) := by
    unfold wv
    field_simp
    ring
  rw [key, div_mul_div_comm]
  rw [show 100 * Real.sqrt S * (100 * Real.sqrt S) =
    10000 * (Real.sqrt S * Real.sqrt S) by ring, hss]
  congr 1
  ring

theorem suppliers_distances : TOPSISEngine.distancesOf suppliers supplierConstraints =
    ([Real.sqrt (521111 / 18687900), Real.sqrt (51 / 1900),
      Real.sqrt (2003257 / 355070100)],
     [Real.sqrt (317657 / 177535050), Real.sqrt (8513 / 1557325),
      Real.sqrt (2 / 75)]) := by
  have h1 : (0 : ℝ) < 192500 := by norm_num
  have h2 : (0 : ℝ) < 1536 := by norm_num
  have h3 : (0 : ℝ) < 809 / 4 := by norm_num
  have h4 : (0 : ℝ) < 57 := by norm_num
  unfold TOPSISEngine.distancesOf
  rw [suppliers_wm, suppliers_ideals]
  unfold TOPSISEngine.calculateDistances
  simp only [show List.range 4 = [0, 1, 2, 3] from rfl, List.map_cons, List.map_nil,
    List.length_cons, List.length_nil, List.getD_cons_zero, List.getD_cons_succ,
    List.sum_cons, List.sum_nil]
  simp only [wv_sub_sq h1, wv_sub_sq h2, wv_sub_sq h3, wv_sub_sq h4]
  simp only [Prod.mk.injEq, List.cons.injEq, and_true]
  and_intros <;> (congr 1; norm_num)

noncomputable def closeA : ℝ :=
  Real.sqrt (317657 / 177535050) /
    (Real.sqrt (521111 / 18687900) + Real.sqrt (317657 / 177535050))

noncomputable def closeB : ℝ :=
  Real.sqrt (8513 / 1557325) / (Real.sqrt (51 / 1900) + Real.sqrt (8513 / 1557325))

noncomputable def closeC : ℝ :=
  Real.sqrt (2 / 75) / (Real.sqrt (2003257 / 355070100) + Real.sqrt (2 / 75))

theorem suppliers_closeness :
    TOPSISEngine.closenessListOf suppliers supplierConstraints =
      [closeA, closeB, closeC] := by
  unfold TOPSISEngine.closenessListOf
  rw [suppliers_distances]
  unfold TOPSISEngine.calculateClosenessScores closeA closeB closeC
  dsimp only
  simp only [List.length_cons, List.length_nil, show List.range 3 = [0, 1, 2] from rfl,
    List.map_cons, List.map_nil, List.getD_cons_zero, List.getD_cons_succ]
  rw [if_neg (by positivity :
      ¬(Real.sqrt (521111 / 18687900) + Real.sqrt (317657 / 177535050) = 0)),
    if_neg (by positivity :
      ¬(Real.sqrt (51 / 1900) + Real.sqrt (8513 / 1557325) = 0)),
    if_neg (by positivity :
      ¬(Real.sqrt (2003257 / 355070100) + Real.sqrt (2 / 75) = 0))]

theorem mergeSort_three {α : Type} (le : α → α → Bool) (x y z : α)
    (hxy : le x y = false) (hyz : le y z = false) :
    [x, y, z].mergeSort le = [z, y, x] := by
  rw [List.mergeSort]
  simp only [List.splitInTwo_fst, List.splitInTwo_snd, List.length_cons,
    List.length_nil]
  norm_num
  rw [List.mergeSort]
  simp only [List.splitInTwo_fst, List.splitInTwo_snd, List.length_cons,
    List.length_nil]
  norm_num
  rw [List.cons_merge_cons, hxy]
  simp only [Bool.false_eq_true, if_false, List.merge_right]
  rw [List.cons_merge_cons, hyz]
  simp only [Bool.false_eq_true, if_false, List.merge_right]

theorem closeness_lt {a b a2 b2 : ℝ} (ha : 0 < a) (hb : 0 < b) (ha2 : 0 < a2)
    (hb2 : 0 < b2) (h : b * a2 < b2 * a) :
    Real.sqrt b / (Real.sqrt a + Real.sqrt b) <
      Real.sqrt b2 / (Real.sqrt a2 + Real.sqrt b2) := by
  have hsa := Real.sqrt_pos.mpr ha
  have hsb := Real.sqrt_pos.mpr hb
  have hsa2 := Real.sqrt_pos.mpr ha2
  have hsb2 := Real.sqrt_pos.mpr hb2
  rw [div_lt_div_iff (by positivity) (by positivity)]
  have key : Real.sqrt b * Real.sqrt a2 < Real.sqrt b2 * Real.sqrt a := by
    rw [← Real.sqrt_mul hb.le, ← Real.sqrt_mul hb2.le]
    exact Real.sqrt_lt_sqrt (by positivity) h
  nlinarith [key]

theorem closeness_gt_threshold {a b : ℝ} (ha : 0 < a) (hb : 0 < b)
    (h : 9 * a < 4 * b) :
    (3 / 5 : ℝ) < Real.sqrt b / (Real.sqrt a + Real.sqrt b) := by
  have hsa := Real.sqrt_pos.mpr ha
  have hsb := Real.sqrt_pos.mpr hb
  rw [lt_div_iff (by positivity)]
  have key : 3 * Real.sqrt a < 2 * Real.sqrt b := by
    have h9 : Real.sqrt (9 * a) < Real.sqrt (4 * b) :=
      Real.sqrt_lt_sqrt (by positivity) h
    rw [Real.sqrt_mul (by norm_num) a, Real.sqrt_mul (by norm_num) b,
      show Real.sqrt 9 = 3 by
        rw [show (9 : ℝ) = 3 ^ 2 by norm_num]
        exact Real.sqrt_sq (by norm_num),
      show Real.sqrt 4 = 2 by
        rw [show (4 : ℝ) = 2 ^ 2 by norm_num]
        exact Real.sqrt_sq (by norm_num)] at h9
    exact h9
  linarith

theorem closeA_lt_closeB : closeA < closeB := by
  unfold closeA closeB
  exact closeness_lt (by norm_num) (by norm_num) (by norm_num) (by norm_num)
    (by norm_num)

theorem closeB_lt_closeC : closeB < closeC := by
  unfold closeB closeC
  exact closeness_lt (by norm_num) (by norm_num) (by norm_num) (by norm_num)
    (by norm_num)

theorem closeC_gt : (3 / 5 : ℝ) < closeC := by
  unfold closeC
  exact closeness_gt_threshold (by norm_num) (by norm_num) (by norm_num)

/-- C9: on the three-supplier input (cost minimize w30, quality maximize w40,
delivery maximize w20, service maximize w10; A=(250,16,8.5,5),
B=(200,16,9,4), C=(300,32,7,4)) `calculateScores` succeeds and ranks C first,
B second, A third, with strictly descending closeness scores and C's
closeness score strictly above 0.6. -/
theorem claim_C9 :
    ∃ r, TOPSISEngine.calculateScores suppliers supplierConstraints =
        Result.success r ∧
      ∃ a b c : ℝ,
        r.rankings.map (fun rk => (rk.option.id, rk.rank, rk.closenessScore)) =
          [("C", 1, c), ("B", 2, b), ("A", 3, a)] ∧
        a < b ∧ b < c ∧ (0.6 : ℝ) < c := by
  have hvalid :
      (TOPSISEngine.validateInputs suppliers supplierConstraints).isValid = true := by
    decide
  have hC6 : (0.6 : ℝ) < closeC := by
    rw [show (0.6 : ℝ) = 3 / 5 by norm_num]
    exact closeC_gt
  refine ⟨_, TOPSISEngine.calculateScores_of_valid hvalid, closeA, closeB, closeC,
    ?_, closeA_lt_closeB, closeB_lt_closeC, hC6⟩
  have hrank : (TOPSISEngine.computeScoringResult suppliers supplierConstraints).rankings =
      TOPSISEngine.generateRankings suppliers
        (TOPSISEngine.closenessListOf suppliers supplierConstraints)
        (TOPSISEngine.weightedMatrixOf suppliers supplierConstraints)
        supplierConstraints := rfl
  rw [hrank, suppliers_closeness]
  unfold TOPSISEngine.generateRankings
  dsimp only
  have hidx : suppliers.enum.map (fun p =>
      TOPSISEngine.IndexedRanking.mk p.2 p.1 ([closeA, closeB, closeC].getD p.1 0)) =
      [⟨supplierA, 0, closeA⟩, ⟨supplierB, 1, closeB⟩, ⟨supplierC, 2, closeC⟩] := rfl
  rw [hidx]
  rw [mergeSort_three TOPSISEngine.rankLE _ _ _
    (by
      unfold TOPSISEngine.rankLE
      exact decide_eq_false (not_le.mpr closeA_lt_closeB))
    (by
      unfold TOPSISEngine.rankLE
      exact decide_eq_false (not_le.mpr closeB_lt_closeC))]
  rfl

end TradeOff





